import Mathlib

/-!
Verification of the test-configuration sweep engine of
`local-kafka-test` (files `test_parameters.py` and the driver loop of
`run_test.py`), via a shallow embedding in Lean.

Python dictionaries with string keys are embedded as ordered association
lists (`List (String × _)`); `{**d, k: v}` becomes `dictInsert`, `d.get(k, v0)`
becomes `dictGet`.  Machine integers are `Int` (Python ints are unbounded),
Python floats are modelled by `ℚ`, Python `//` (floor division) by `Int.fdiv`
guarded by a zero-divisor check that models `ZeroDivisionError`.  The global
RNG (`random.randint(0, 100000)`) is abstracted as injected `fresh` arguments;
Python exceptions become `Except`/`Option` error results.
-/

set_option autoImplicit false

namespace KafkaSweep

/-- A candidate value in the parameter grid: a number, a string, or the
structured consumer-group shape `\x7b"num_groups": g, "size": s\x7d`. -/
inductive PVal where
  | num (n : Int)
  | str (s : String)
  | groups (num_groups : Int) (size : Int)
deriving DecidableEq, Repr

/-- An index dictionary: parameter name → current slot, in insertion order. -/
abbrev Index := List (String × Nat)

/-- Python `d.get(k, default)` on a string-keyed dict. -/
def dictGet (d : Index) (k : String) (default : Nat) : Nat :=
  match d.find? (fun p => p.1 == k) with
  | some p => p.2
  | none => default

/-- Python `\x7b**d, k: v\x7d`: update `k` in place if present, else append. -/
def dictInsert (d : Index) (k : String) (v : Nat) : Index :=
  if d.any (fun p => p.1 == k) then
    d.map (fun p => if p.1 == k then (k, v) else p)
  else
    d ++ [(k, v)]

/-- Python `\x7b**d, **e\x7d` for index dicts. -/
def dictMergeAll (d e : Index) : Index :=
  e.foldl (fun acc p => dictInsert acc p.1 p.2) d

/-- The ordered `parameters` mapping of a test specification:
parameter name → ordered candidate list. -/
abbrev Params := List (String × List PVal)

/-- Python `spec["parameters"][name]` (first matching key). -/
def gridLookup (params : Params) (k : String) : Option (List PVal) :=
  (params.find? (fun p => p.1 == k)).map (fun p => p.2)

/-- Exceptions raised by the index-stepping code: `OverflowError`
(“all test configurations exhausted”) and `ValueError`
(`list.index` on a missing element). -/
inductive StepErr where
  | overflow
  | valueError
deriving DecidableEq, Repr

/-- The body of `increment_test_index(index, event, pos)`, with the recursion
on increasing `pos` (bounded by the number of parameters) realised as
structural recursion on the remaining distance `k = len(parameters) - pos`,
so that the definition evaluates by kernel reduction.  The wrapper
`increment_test_index` supplies exactly that distance. -/
def incrementAux (index : Index) (params : Params)
    (prevSeries fresh : Nat) (pos : Nat) : Nat → Except StepErr (Index × Nat)
  | 0 => .error .overflow
  | k + 1 =>
    let parameters := params.map Prod.fst
    if h : pos < parameters.length then
      let paramater_name := parameters.get ⟨pos, h⟩
      let parameter_value := dictGet index paramater_name 0
      match gridLookup params paramater_name with
      | none => .error .valueError
      | some candidates =>
        if parameter_value + 1 < candidates.length then
          .ok (dictInsert index paramater_name (parameter_value + 1), prevSeries)
        else
          if paramater_name == "cluster_throughput_mb_per_sec" then
            match incrementAux (dictInsert index paramater_name 0)
                params prevSeries fresh (pos + 1) k with
            | .ok (updated_index, _) => .ok (updated_index, fresh)
            | .error e => .error e
          else
            incrementAux (dictInsert index paramater_name 0)
              params prevSeries fresh (pos + 1) k
    else
      .error .overflow

/-- `increment_test_index(index, event, pos)` from `test_parameters.py`.

The `event` argument is replaced by the two pieces of it the function reads:
`params` (= `event["test_specification"]["parameters"]`, an ordered dict) and
`prevSeries` (= `event["current_test"]["parameters"]["throughput_series_id"]`).
`fresh` stands for the value the next `random.randint(0, 100000)` call
would return. -/
def increment_test_index (index : Index) (params : Params)
    (prevSeries fresh : Nat) (pos : Nat) : Except StepErr (Index × Nat) :=
  incrementAux index params prevSeries fresh pos (params.length - pos)

/-- `skip_remaining_throughput(index, event)` from `test_parameters.py`.
`fresh` abstracts the `random.randint` draws; the Python `list.index`
call raising `ValueError` when the throughput dimension is absent is made
explicit. -/
def skip_remaining_throughput (index : Index) (params : Params)
    (prevSeries fresh : Nat) : Except StepErr (Index × Nat) :=
  let parameters := params.map Prod.fst
  if "cluster_throughput_mb_per_sec" ∈ parameters then
    let throughput_index := parameters.findIdx (fun n => n == "cluster_throughput_mb_per_sec")
    let reset_index : Index :=
      ((index.map Prod.fst).take (throughput_index + 1)).map (fun name => (name, 0))
    match increment_test_index (dictMergeAll index reset_index) params
        prevSeries fresh (throughput_index + 1) with
    | .ok (updated_index, _) => .ok (updated_index, fresh)
    | .error e => .error e
  else
    .error .valueError

/-- A Python value appearing in a skip-condition tree (`condition: Any`).
Floats are modelled by `ℚ`; `pynone` stands for any other object. -/
inductive PyVal where
  | num (q : ℚ)
  | bool (b : Bool)
  | str (s : String)
  | list (xs : List PyVal)
  | dict (entries : List (String × PyVal))
  | pynone

/-- Python truthiness of a value (used by `if skip_condition and ...`). -/
def PyVal.truthy : PyVal → Bool
  | .num q => decide (q ≠ 0)
  | .bool b => b
  | .str s => !s.isEmpty
  | .list xs => !xs.isEmpty
  | .dict es => !es.isEmpty
  | .pynone => false

/-- Python `"k" in d` / `d["k"]` on a condition dict. -/
def pyDictLookup (entries : List (String × PyVal)) (k : String) : Option PyVal :=
  (entries.find? (fun p => p.1 == k)).map (fun p => p.2)

/-- Result of evaluating a skip condition: a float or a bool (comparisons
return Python bools). -/
inductive EvalResult where
  | num (q : ℚ)
  | bool (b : Bool)
deriving DecidableEq, Repr

/-- Numeric value used when a result appears as a comparison operand
(Python bools compare as 1/0). -/
def EvalResult.toRat : EvalResult → ℚ
  | .num q => q
  | .bool b => if b then 1 else 0

/-- Python truthiness of an evaluation result (`if evaluate_skip_condition(...)`). -/
def EvalResult.toBool : EvalResult → Bool
  | .num q => decide (q ≠ 0)
  | .bool b => b

/-- Exceptions `evaluate_skip_condition` can raise.  `malformed c` is the
explicit `Exception("Unable to parse condition: " + str(c))` — it carries the
offending fragment `c`; the others model `IndexError`/`TypeError`/`KeyError`
from subscripting and missing keys. -/
inductive EvalErr where
  | malformed (fragment : PyVal)
  | indexError
  | typeError
  | keyError

mutual

/-- Structural size of a condition tree, used as the fuel bound for the
evaluator (every recursive call of the source descends into a strict
sub-tree). -/
def PyVal.size : PyVal → Nat
  | .num _ => 1
  | .bool _ => 1
  | .str _ => 1
  | .pynone => 1
  | .list xs => PyVal.sizeList xs + 1
  | .dict es => PyVal.sizeDict es + 1

def PyVal.sizeList : List PyVal → Nat
  | [] => 1
  | x :: xs => PyVal.size x + PyVal.sizeList xs + 1

def PyVal.sizeDict : List (String × PyVal) → Nat
  | [] => 1
  | (_, v) :: es => PyVal.size v + PyVal.sizeDict es + 1

end

/-- The materialized parameter record built by `update_parameters` (the
`updated_parameters` dict).  `raw` holds the grid value of every dimension at
the current index; the remaining fields are the derived entries. -/
structure MatParams where
  raw : List (String × PVal)
  num_jobs : Int
  producer_throughput : Int
  records_per_sec : Int
  num_records_producer : Int
  num_records_consumer : Int
  test_id : Nat
  throughput_series_id : Nat
  topic_name : String
  depletion_topic_name : String
deriving DecidableEq, Repr

/-- `event["test_specification"]`: the `parameters` grid and the optional
`skip_remaining_throughput` condition. -/
structure TestSpec where
  parameters : Params
  skip_remaining_throughput : Option PyVal

/-- `event["current_test"]`. -/
structure CurrentTest where
  index : Index
  parameters : MatParams
deriving DecidableEq, Repr

/-- A producer feedback record: flat metric name → number. -/
abbrev ProducerResult := List (String × ℚ)

/-- The event dict threaded through the engine. -/
structure Event where
  test_specification : TestSpec
  current_test : Option CurrentTest
  producer_result : Option ProducerResult
  all_tests_completed : Bool

/-- Python `producer_result.get(k, default)`. -/
def metricGet (r : ProducerResult) (k : String) (default : ℚ) : ℚ :=
  match r.find? (fun p => p.1 == k) with
  | some p => p.2
  | none => default

/-- The string branch of `evaluate_skip_condition` (lines 87–96): the named
metric `sent_div_requested_mb_per_sec`, any other string raising the
“Unable to parse condition” exception. -/
def evalMetricString (s : String) (event : Event) : Except EvalErr EvalResult :=
  if s == "sent_div_requested_mb_per_sec" then
    let producer_result := event.producer_result.getD []
    let mb_per_sec_sum := metricGet producer_result ("mbPerSecSum") 0
    match event.current_test with
    | none => .error .keyError
    | some current =>
      match current.parameters.raw.find? (fun p => p.1 == "cluster_throughput_mb_per_sec") with
      | some (_, .num requested_throughput) =>
        if (requested_throughput : ℚ) ≤ 0 then .ok (.num 1)
        else .ok (.num (mb_per_sec_sum / (requested_throughput : ℚ)))
      | some _ => .error .typeError
      | none => .error .keyError
  else
    .error (.malformed (.str s))

/-- One comparison step `evaluate(args[0]) OP evaluate(args[1])`, given the
evaluator for sub-expressions.  The subscripts `args[0]`/`args[1]` are
realised per shape of `args`: a list yields its elements, a string yields
one-character strings (which the evaluator's string branch then handles), a
dict raises `KeyError` (its keys are strings, never `0`), and
numbers/bools/None raise `TypeError`.  Evaluation order matches the source:
`args[0]` is subscripted and evaluated before `args[1]` is touched. -/
def evalComparison (args : PyVal) (event : Event)
    (recur : PyVal → Except EvalErr EvalResult) (op : ℚ → ℚ → Bool) :
    Except EvalErr EvalResult :=
  match args with
  | .list xs =>
    match xs.get? 0 with
    | none => .error .indexError
    | some a =>
      match recur a with
      | .error e => .error e
      | .ok va =>
        match xs.get? 1 with
        | none => .error .indexError
        | some b =>
          match recur b with
          | .error e => .error e
          | .ok vb => .ok (.bool (op va.toRat vb.toRat))
  | .str s =>
    match s.data.get? 0 with
    | none => .error .indexError
    | some ch =>
      match evalMetricString (String.mk [ch]) event with
      | .error e => .error e
      | .ok va =>
        match s.data.get? 1 with
        | none => .error .indexError
        | some ch2 =>
          match evalMetricString (String.mk [ch2]) event with
          | .error e => .error e
          | .ok vb => .ok (.bool (op va.toRat vb.toRat))
  | .dict _ => .error .keyError
  | _ => .error .typeError

/-- The body of `evaluate_skip_condition(condition, event)` (lines 67–100),
with the recursion into sub-expressions (which descends into strict
sub-trees) realised as structural recursion on a fuel bound; the wrapper
`evaluate_skip_condition` supplies `PyVal.size c`, which always suffices
(`evalAux_of_size_le` below). -/
def evalAux (event : Event) : Nat → PyVal → Except EvalErr EvalResult
  | 0, _ => .error .typeError
  | fuel + 1, c =>
    match c with
    | .dict entries =>
      match pyDictLookup entries ("greater-than") with
      | some args => evalComparison args event (evalAux event fuel) (fun a b => decide (a > b))
      | none =>
        match pyDictLookup entries ("less-than") with
        | some args => evalComparison args event (evalAux event fuel) (fun a b => decide (a < b))
        | none => .error (.malformed (.dict entries))
    | .str s => evalMetricString s event
    | .num q => .ok (.num q)
    | .bool b => .ok (.num (if b then 1 else 0))
    | .list xs => .error (.malformed (.list xs))
    | .pynone => .error (.malformed .pynone)

/-- `evaluate_skip_condition(condition, event)` from `test_parameters.py`. -/
def evaluate_skip_condition (c : PyVal) (event : Event) : Except EvalErr EvalResult :=
  evalAux event (PyVal.size c) c

/-- Python `a // b` on ints (floor division), with `ZeroDivisionError` made
explicit as `none`. -/
def pyFloorDiv (a b : Int) : Option Int :=
  if b = 0 then none else some (Int.fdiv a b)

/-- `lambda x: re.sub(r'[^a-zA-Z0-9-]', '-', x.replace(' ', '-'))`. -/
def remove_invalid_chars (x : String) : String :=
  String.mk ((String.replace x (" ") ("-")).data.map
    (fun c => if c.isAlpha || c.isDigit || c == '-' then c else '-'))

/-- The `topic_name` built by `update_parameters` (lines 168–173): the test
id, the series id and, per dimension, the sanitised and 15-char-truncated
name together with the current slot of the index. -/
def make_topic_name (test_id throughput_series_id : Nat) (idx : Index) : String :=
  "test-id-" ++ toString test_id ++ "--throughput-series-id-" ++
    toString throughput_series_id ++ "--" ++
    String.intercalate ("--") (idx.map (fun p =>
      String.mk ((remove_invalid_chars p.1).data.take 15) ++ "-" ++ toString p.2))

/-- The dict comprehension of `update_parameters` (lines 162–165): the
candidate value of every dimension at its current index slot
(`KeyError`/`IndexError` become `none`). -/
def materializeRaw (test_specification : TestSpec) (idx : Index) :
    Option (List (String × PVal)) :=
  idx.mapM (fun p => do
    let candidates ← gridLookup test_specification.parameters p.1
    let v ← candidates.get? p.2
    pure (p.1, v))

/-- Lookup of a numeric entry of `updated_parameters` (a `KeyError` for a
missing key and a `TypeError` for a non-numeric value both become `none`). -/
def rawNum (raw : List (String × PVal)) (k : String) : Option Int :=
  match raw.find? (fun p => p.1 == k) with
  | some (_, .num n) => some n
  | _ => none

/-- Lookup of the `consumer_groups` shape `(num_groups, size)` in
`updated_parameters`. -/
def rawGroups (raw : List (String × PVal)) (k : String) : Option (Int × Int) :=
  match raw.find? (fun p => p.1 == k) with
  | some (_, .groups g s) => some (g, s)
  | _ => none

/-- Lines 178–192 of `update_parameters`: producer/consumer byte rates and
record counts.  Returns
`(producer_throughput_byte, consumer_throughput_byte,
num_records_producer, num_records_consumer)`;
`consumer_throughput_byte` is a local in the source, exposed here so its
value can be stated. -/
def throughput_quantities (cluster_throughput_mb_per_sec num_producers
    consumer_group_size duration_sec record_size_byte : Int) :
    Option (Int × Int × Int × Int) :=
  if cluster_throughput_mb_per_sec > 0 then do
    let producer_throughput_byte ←
      pyFloorDiv (cluster_throughput_mb_per_sec * 1024 ^ 2) num_producers
    let consumer_throughput_byte ←
      if consumer_group_size > 0 then
        pyFloorDiv (cluster_throughput_mb_per_sec * 1024 ^ 2) consumer_group_size
      else
        some 0
    let num_records_producer ←
      pyFloorDiv (producer_throughput_byte * duration_sec) record_size_byte
    let num_records_consumer ←
      pyFloorDiv (consumer_throughput_byte * duration_sec) record_size_byte
    some (producer_throughput_byte, consumer_throughput_byte,
      num_records_producer, num_records_consumer)
  else
    some (-1, -1, 2147483647, 2147483647)

/-- `update_parameters(test_specification, updated_test_index, test_id,
throughput_series_id)` (lines 138–217).  `none` models an uncaught Python
exception (`KeyError`/`IndexError`/`TypeError`/`ZeroDivisionError`). -/
def update_parameters (test_specification : TestSpec)
    (updated_test_index : Option Index) (test_id throughput_series_id : Nat) :
    Option Event :=
  match updated_test_index with
  | none =>
    some { test_specification := test_specification,
           current_test := none,
           producer_result := none,
           all_tests_completed := true }
  | some idx => do
    let raw ← materializeRaw test_specification idx
    let record_size_byte ← rawNum raw ("record_size_byte")
    let cluster_throughput ← rawNum raw ("cluster_throughput_mb_per_sec")
    let num_producers ← rawNum raw ("num_producers")
    let consumer_groups ← rawGroups raw ("consumer_groups")
    let duration_sec ← rawNum raw ("duration_sec")
    let q ← throughput_quantities cluster_throughput num_producers
      consumer_groups.2 duration_sec record_size_byte
    let (producer_throughput_byte, _, num_records_producer, num_records_consumer) := q
    let records_per_sec ←
      if producer_throughput_byte > 0 then
        (pyFloorDiv producer_throughput_byte record_size_byte).map (fun d => max 1 d)
      else
        some (-1)
    let updated_parameters : MatParams := {
      raw := raw,
      num_jobs := num_producers + consumer_groups.1 * consumer_groups.2,
      producer_throughput := producer_throughput_byte,
      records_per_sec := records_per_sec,
      num_records_producer := num_records_producer,
      num_records_consumer := num_records_consumer,
      test_id := test_id,
      throughput_series_id := throughput_series_id,
      topic_name := make_topic_name test_id throughput_series_id idx,
      depletion_topic_name := "test-id-" ++ toString test_id ++
        "--throughput-series-id-" ++ toString throughput_series_id ++ "--depletion" }
    pure { test_specification := test_specification,
           current_test := some { index := idx, parameters := updated_parameters },
           producer_result := none,
           all_tests_completed := false }

/-- The normal-increment arm of `increment_index_and_update_parameters`
(lines 51–58): `OverflowError` is caught and turns into a `None` index with a
freshly drawn series id; any other exception propagates. -/
def incrementArm (previous_test_index : Index) (params : Params)
    (prevSeries freshSeries : Nat) : Option (Option Index × Nat) :=
  match increment_test_index previous_test_index params prevSeries freshSeries 0 with
  | .ok (i, s) => some (some i, s)
  | .error .overflow => some (none, freshSeries)
  | .error .valueError => none

/-- The skip arm (line 48 plus the shared `except OverflowError`). -/
def skipArm (previous_test_index : Index) (params : Params)
    (prevSeries freshSeries : Nat) : Option (Option Index × Nat) :=
  match skip_remaining_throughput previous_test_index params prevSeries freshSeries with
  | .ok (i, s) => some (some i, s)
  | .error .overflow => some (none, freshSeries)
  | .error .valueError => none

/-- `increment_index_and_update_parameters(event)` (lines 27–64).
`freshSeries` and `freshTestId` abstract the `random.randint(0, 100000)`
draws (at most one fresh series id and exactly one fresh test id are
consumed per step); `none` models an uncaught Python exception. -/
def increment_index_and_update_parameters (event : Event)
    (freshSeries freshTestId : Nat) : Option Event :=
  let test_specification := event.test_specification
  match event.current_test with
  | some current => do
    let previous_test_index := current.index
    let skip_condition := test_specification.skip_remaining_throughput
    let prevSeries := current.parameters.throughput_series_id
    let guardOk : Bool :=
      match skip_condition, event.producer_result with
      | some cond, some r => cond.truthy && !r.isEmpty
      | _, _ => false
    let step ←
      if guardOk then
        match skip_condition with
        | some cond =>
          match evaluate_skip_condition cond event with
          | .error _ => none
          | .ok v =>
            if v.toBool then
              skipArm previous_test_index test_specification.parameters
                prevSeries freshSeries
            else
              incrementArm previous_test_index test_specification.parameters
                prevSeries freshSeries
        | none =>
          incrementArm previous_test_index test_specification.parameters
            prevSeries freshSeries
      else
        incrementArm previous_test_index test_specification.parameters
          prevSeries freshSeries
    update_parameters test_specification step.1 freshTestId step.2
  | none =>
    let updated_test_index :=
      test_specification.parameters.map (fun p => (p.1, 0))
    update_parameters test_specification (some updated_test_index)
      freshTestId freshSeries

/-- The loop body of `KafkaPerformanceTester.run_test_suite` (lines 693–729),
structurally recursive on `max_tests - test_count`.  The external test
execution is abstracted: `feedback k` stands for
`results['producer_results']` of the `k`-th executed test; `rndS`/`rndT`
inject the RNG draws of the `k`-th step.  When the loop condition
`test_count < max_tests` fails the collected results are returned. -/
def suiteLoop (feedback : Nat → List ProducerResult) (rndS rndT : Nat → Nat) :
    Nat → Nat → Event → List MatParams → Option (List MatParams)
  | 0, _, _, all_results => some all_results
  | remaining + 1, test_count, event, all_results => do
    let event ← increment_index_and_update_parameters event
      (rndS test_count) (rndT test_count)
    if event.all_tests_completed then
      some all_results
    else do
      let current ← event.current_test
      let test_params := current.parameters
      let producer_results := feedback test_count
      let all_results := all_results ++ [test_params]
      match event.test_specification.skip_remaining_throughput with
      | none => suiteLoop feedback rndS rndT remaining (test_count + 1) event all_results
      | some cond =>
        let pr := producer_results.head?.getD []
        let event := { event with producer_result := some pr }
        match evaluate_skip_condition cond event with
        | .error _ => none
        | .ok _ =>
          suiteLoop feedback rndS rndT remaining (test_count + 1) event all_results

/-- `run_test_suite(spec_path)` (lines 680–729): run the sweep driver with
the safety limit `max_tests = 1000`.  It returns the list of materialized
test parameter records of the tests it ran (the engine-visible content of
`all_results`); `none` models an uncaught exception. -/
def run_test_suite (spec : TestSpec) (feedback : Nat → List ProducerResult)
    (rndS rndT : Nat → Nat) : Option (List MatParams) :=
  suiteLoop feedback rndS rndT 1000 0
    { test_specification := spec, current_test := none,
      producer_result := none, all_tests_completed := false } []

/-! ## Digit-level odometer abstraction

`increment_test_index` acting on a well-formed index dictionary is, on the
list of per-dimension slots (least significant first), the canonical
mixed-radix counter.  The following proof-side definitions express that
counter structurally; the simulation lemmas connect them to the source
functions above. -/

/-- One odometer step on the digit view: `digits` holds the per-dimension
slots, least significant first; `sizes` the candidate-list lengths.
`none` is exhaustion (the most significant digit would need to carry). -/
def incList : List Nat → List Nat → Option (List Nat)
  | d :: ds, s :: ss =>
    if d + 1 < s then some ((d + 1) :: ds)
    else
      match incList ds ss with
      | some r => some (0 :: r)
      | none => none
  | _, _ => none

/-- Mixed-radix value of a digit list (least significant digit first). -/
def mrVal : List Nat → List Nat → Nat
  | d :: ds, s :: ss => d + s * mrVal ds ss
  | _, _ => 0

/-- Product of the dimension sizes: the total number of grid cells. -/
def prodSizes : List Nat → Nat
  | [] => 1
  | s :: ss => s * prodSizes ss

/-- The digit sequence emitted by iterating `incList`. -/
def sweepList (ss : List Nat) : Nat → List Nat → List (List Nat)
  | 0, _ => []
  | fuel + 1, ds =>
    ds ::
      match incList ds ss with
      | some ds' => sweepList ss fuel ds'
      | none => []

/-- The index sequence emitted by repeatedly applying
`increment_test_index` at position `0` from a given start index — the
observable trace of a skip-free sweep.  `fuel` bounds the number of emitted
indexes. -/
def sweepIndexes (params : Params) (prevSeries fresh : Nat) :
    Nat → Index → List Index
  | 0, _ => []
  | fuel + 1, idx =>
    idx ::
      match increment_test_index idx params prevSeries fresh 0 with
      | .ok (i, _) => sweepIndexes params prevSeries fresh fuel i
      | .error _ => []

/-! ## Association-list lemmas -/

/-- In a pairs list with distinct keys, `find?` on the key of the `j`-th
entry returns exactly that entry. -/
theorem find?_eq_get_of_nodup {α : Type} {l : List (String × α)} :
    ∀ {j : Nat} (hj : j < l.length), (l.map Prod.fst).Nodup →
      l.find? (fun p => p.1 == (l.get ⟨j, hj⟩).1) = some (l.get ⟨j, hj⟩) := by
  induction l with
  | nil => intro j hj _; simp at hj
  | cons hd tl ih =>
    intro j hj hnd
    simp only [List.map_cons, List.nodup_cons] at hnd
    cases j with
    | zero => simp [List.find?]
    | succ j =>
      have hj' : j < tl.length := by simp at hj; omega
      have hmem : (tl.get ⟨j, hj'⟩).1 ∈ tl.map Prod.fst := by
        exact List.mem_map_of_mem Prod.fst (tl.get_mem j hj')
      have hne : ((hd.1 == (tl.get ⟨j, hj'⟩).1) = false) := by
        rw [beq_eq_false_iff_ne]
        intro he
        exact hnd.1 (he ▸ hmem)
      simp only [List.get_cons_succ, List.find?_cons, hne, cond_false]
      exact ih hj' hnd.2

/-- `get` of a zip of equal-length lists. -/
theorem get_zip_eq {α : Type} {names : List String} {vs : List α} :
    ∀ {j : Nat} (h1 : j < names.length) (h2 : j < vs.length),
      (names.zip vs).get ⟨j, by rw [List.length_zip]; omega⟩ =
        (names.get ⟨j, h1⟩, vs.get ⟨j, h2⟩) := by
  induction names generalizing vs with
  | nil => intro j h1; simp at h1
  | cons n ns ih =>
    intro j h1 h2
    cases vs with
    | nil => simp at h2
    | cons v vs =>
      cases j with
      | zero => rfl
      | succ j =>
        have h1' : j < ns.length := by simp at h1; omega
        have h2' : j < vs.length := by simp at h2; omega
        simp only [List.zip_cons_cons, List.get_cons_succ]
        exact ih h1' h2'

/-- `dictGet` on a zip with distinct keys reads the aligned slot. -/
theorem dictGet_zip {names : List String} {ds : List Nat} {j : Nat}
    (h1 : j < names.length) (h2 : j < ds.length) (hnd : names.Nodup)
    (hlen : ds.length = names.length) :
    dictGet (names.zip ds) (names.get ⟨j, h1⟩) 0 = ds.get ⟨j, h2⟩ := by
  have hj : j < (names.zip ds).length := by rw [List.length_zip]; omega
  have hfst : (names.zip ds).map Prod.fst = names := List.map_fst_zip _ _ (by omega)
  have := find?_eq_get_of_nodup (l := names.zip ds) hj (by rw [hfst]; exact hnd)
  rw [get_zip_eq h1 h2] at this
  unfold dictGet
  rw [this]

/-- `dictInsert` on a zip with distinct keys updates the aligned slot. -/
theorem dictInsert_zip {names : List String} {ds : List Nat} {v : Nat} :
    ∀ {j : Nat} (h1 : j < names.length), names.Nodup →
      ds.length = names.length →
      dictInsert (names.zip ds) (names.get ⟨j, h1⟩) v = names.zip (ds.set j v) := by
  induction names generalizing ds with
  | nil => intro j h1; simp at h1
  | cons n ns ih =>
    intro j h1 hnd hlen
    cases ds with
    | nil => simp at hlen
    | cons d ds =>
      simp only [List.nodup_cons] at hnd
      simp only [List.length_cons, Nat.succ.injEq] at hlen
      cases j with
      | zero =>
        show dictInsert ((n :: ns).zip (d :: ds)) n v = (n :: ns).zip ((d :: ds).set 0 v)
        unfold dictInsert
        rw [if_pos (by simp)]
        simp only [List.zip_cons_cons, List.map_cons, List.set]
        congr 1
        · simp
        · have h2 : ∀ p ∈ ns.zip ds, (if p.1 == n then (n, v) else p) = p := by
            intro p hp
            have hpm : p.1 ∈ ns := (List.of_mem_zip hp).1
            rw [if_neg]
            simp only [beq_iff_eq]
            intro he; exact hnd.1 (he ▸ hpm)
          rw [List.map_congr_left h2]
          simp
      | succ j =>
        have h1' : j < ns.length := by simp at h1; omega
        have h2' : j < ds.length := by omega
        have hkey : ((ns.get ⟨j, h1'⟩) ∈ ns) := ns.get_mem j h1'
        have hne : ¬ ((n == ns.get ⟨j, h1'⟩) = true) := by
          simp only [beq_iff_eq]
          intro he; exact hnd.1 (he ▸ hkey)
        have hany : (ns.zip ds).any (fun p => p.1 == ns.get ⟨j, h1'⟩) = true := by
          rw [List.any_eq_true]
          refine ⟨(ns.get ⟨j, h1'⟩, ds.get ⟨j, h2'⟩), ?_, by simp⟩
          have hz : j < (ns.zip ds).length := by rw [List.length_zip]; omega
          have hg := get_zip_eq h1' h2'
          exact hg ▸ (ns.zip ds).get_mem j hz
        have ihr := ih h1' hnd.2 hlen
        show dictInsert ((n :: ns).zip (d :: ds)) (ns.get ⟨j, h1'⟩) v
          = (n :: ns).zip ((d :: ds).set (j + 1) v)
        unfold dictInsert at ihr ⊢
        rw [if_pos hany] at ihr
        rw [if_pos (by simp only [List.zip_cons_cons, List.any_cons]; rw [Bool.or_eq_true]; exact Or.inr hany)]
        simp only [List.zip_cons_cons, List.map_cons, List.set]
        rw [if_neg hne, ihr]

/-- Zipping with a fixed key list is injective on equal-length value lists. -/
theorem zip_right_inj {α : Type} {names : List String} :
    ∀ {xs ys : List α}, xs.length = names.length → ys.length = names.length →
      names.zip xs = names.zip ys → xs = ys := by
  induction names with
  | nil =>
    intro xs ys hx hy _
    simp only [List.length_nil, List.length_eq_zero] at hx hy
    rw [hx, hy]
  | cons n ns ih =>
    intro xs ys hx hy h
    cases xs with
    | nil => simp at hx
    | cons x xs =>
      cases ys with
      | nil => simp at hy
      | cons y ys =>
        simp only [List.zip_cons_cons, List.cons.injEq, Prod.mk.injEq] at h
        simp only [List.length_cons, Nat.succ.injEq] at hx hy
        rw [h.1.2, ih hx hy h.2]

/-! ## Counting lemmas for the digit odometer -/

/-- Digit validity: every digit is below its dimension size. -/
abbrev ValidDigits (ds ss : List Nat) : Prop := List.Forall₂ (· < ·) ds ss

/-- Maximality: every digit sits at its last slot. -/
abbrev MaxDigits (ds ss : List Nat) : Prop := List.Forall₂ (fun d s => d + 1 = s) ds ss

theorem incList_length : ∀ {ds ss ds' : List Nat},
    incList ds ss = some ds' → ds'.length = ds.length := by
  intro ds
  induction ds with
  | nil => intro ss ds' h; cases ss <;> simp [incList] at h
  | cons d ds ih =>
    intro ss ds' h
    cases ss with
    | nil => simp [incList] at h
    | cons s ss =>
      simp only [incList] at h
      split at h
      · cases h; rfl
      · cases hrec : incList ds ss with
        | none => rw [hrec] at h; cases h
        | some r =>
          rw [hrec] at h
          cases h
          simp [ih hrec]

theorem incList_valid : ∀ {ds ss ds' : List Nat}, ValidDigits ds ss →
    incList ds ss = some ds' → ValidDigits ds' ss := by
  intro ds
  induction ds with
  | nil => intro ss ds' _ h; cases ss <;> simp [incList] at h
  | cons d ds ih =>
    intro ss ds' hv h
    cases ss with
    | nil => simp [incList] at h
    | cons s ss =>
      rcases hv with _ | ⟨hds, htl⟩
      simp only [incList] at h
      split at h
      · cases h
        exact List.Forall₂.cons (by omega) htl
      · cases hrec : incList ds ss with
        | none => rw [hrec] at h; cases h
        | some r =>
          rw [hrec] at h
          cases h
          exact List.Forall₂.cons (by omega) (ih htl hrec)

theorem incList_mrVal : ∀ {ds ss ds' : List Nat}, ValidDigits ds ss →
    incList ds ss = some ds' → mrVal ds' ss = mrVal ds ss + 1 := by
  intro ds
  induction ds with
  | nil => intro ss ds' _ h; cases ss <;> simp [incList] at h
  | cons d ds ih =>
    intro ss ds' hv h
    cases ss with
    | nil => simp [incList] at h
    | cons s ss =>
      rcases hv with _ | ⟨hds, htl⟩
      simp only [incList] at h
      split at h
      · cases h; simp [mrVal]; omega
      · rename_i hge
        cases hrec : incList ds ss with
        | none => rw [hrec] at h; cases h
        | some r =>
          rw [hrec] at h
          cases h
          have hs : s = d + 1 := by omega
          simp only [mrVal, ih htl hrec]
          subst hs
          ring

theorem incList_none_iff : ∀ {ds ss : List Nat}, ValidDigits ds ss →
    (incList ds ss = none ↔ MaxDigits ds ss) := by
  intro ds
  induction ds with
  | nil =>
    intro ss hv
    cases hv
    simp [incList]
  | cons d ds ih =>
    intro ss hv
    cases ss with
    | nil => cases hv
    | cons s ss =>
      rcases hv with _ | ⟨hds, htl⟩
      simp only [incList]
      constructor
      · intro h
        split at h
        · cases h
        · cases hrec : incList ds ss with
          | some r => rw [hrec] at h; cases h
          | none =>
            rename_i hge
            exact List.Forall₂.cons (by omega) ((ih htl).mp hrec)
      · intro h
        rcases h with _ | ⟨hd1, htl1⟩
        rw [if_neg (by omega)]
        rw [(ih htl).mpr htl1]

theorem mrVal_lt_prod : ∀ {ds ss : List Nat}, ValidDigits ds ss →
    mrVal ds ss < prodSizes ss := by
  intro ds
  induction ds with
  | nil =>
    intro ss hv
    cases hv
    simp [mrVal, prodSizes]
  | cons d ds ih =>
    intro ss hv
    cases ss with
    | nil => cases hv
    | cons s ss =>
      rcases hv with _ | ⟨hds, htl⟩
      have h1 := ih htl
      simp only [mrVal, prodSizes]
      calc d + s * mrVal ds ss < s + s * mrVal ds ss := by omega
        _ = s * (mrVal ds ss + 1) := by ring
        _ ≤ s * prodSizes ss := Nat.mul_le_mul_left s (by omega)

theorem mrVal_max_succ : ∀ {ds ss : List Nat}, MaxDigits ds ss →
    mrVal ds ss + 1 = prodSizes ss := by
  intro ds
  induction ds with
  | nil =>
    intro ss hv
    cases hv
    simp [mrVal, prodSizes]
  | cons d ds ih =>
    intro ss hv
    cases ss with
    | nil => cases hv
    | cons s ss =>
      rcases hv with _ | ⟨hds, htl⟩
      have h1 := ih htl
      simp only [mrVal, prodSizes]
      calc d + s * mrVal ds ss + 1 = s + s * mrVal ds ss := by omega
        _ = s * (mrVal ds ss + 1) := by ring
        _ = s * prodSizes ss := by rw [h1]

theorem mrVal_replicate_zero : ∀ {n : Nat} {ss : List Nat},
    mrVal (List.replicate n 0) ss = 0 := by
  intro n
  induction n with
  | zero => intro ss; cases ss <;> simp [mrVal]
  | succ n ih =>
    intro ss
    cases ss with
    | nil => simp [mrVal, List.replicate]
    | cons s ss => simp [mrVal, List.replicate, ih]

theorem sweepList_length {ss : List Nat} : ∀ (fuel : Nat) {ds : List Nat},
    ValidDigits ds ss → prodSizes ss - mrVal ds ss ≤ fuel →
    (sweepList ss fuel ds).length = prodSizes ss - mrVal ds ss := by
  intro fuel
  induction fuel with
  | zero =>
    intro ds hv hb
    have := mrVal_lt_prod hv
    omega
  | succ fuel ih =>
    intro ds hv hb
    simp only [sweepList]
    cases hinc : incList ds ss with
    | none =>
      have hmax := (incList_none_iff hv).mp hinc
      have := mrVal_max_succ hmax
      simp only [List.length_cons, List.length_nil]
      omega
    | some ds' =>
      have hv' := incList_valid hv hinc
      have hm := incList_mrVal hv hinc
      have hlt := mrVal_lt_prod hv
      have := ih hv' (by omega)
      simp only [List.length_cons, this, hm]
      omega

theorem sweepList_mem_valid {ss : List Nat} : ∀ (fuel : Nat) {ds x : List Nat},
    ValidDigits ds ss → x ∈ sweepList ss fuel ds → ValidDigits x ss := by
  intro fuel
  induction fuel with
  | zero => intro ds x _ h; simp [sweepList] at h
  | succ fuel ih =>
    intro ds x hv h
    simp only [sweepList, List.mem_cons] at h
    rcases h with h | h
    · exact h ▸ hv
    · cases hinc : incList ds ss with
      | none => rw [hinc] at h; simp at h
      | some ds' =>
        rw [hinc] at h
        exact ih (incList_valid hv hinc) h

theorem mrVal_le_of_mem_sweep {ss : List Nat} : ∀ (fuel : Nat) {ds x : List Nat},
    ValidDigits ds ss → x ∈ sweepList ss fuel ds → mrVal ds ss ≤ mrVal x ss := by
  intro fuel
  induction fuel with
  | zero => intro ds x _ h; simp [sweepList] at h
  | succ fuel ih =>
    intro ds x hv h
    simp only [sweepList, List.mem_cons] at h
    rcases h with h | h
    · rw [h]
    · cases hinc : incList ds ss with
      | none => rw [hinc] at h; simp at h
      | some ds' =>
        rw [hinc] at h
        have := ih (incList_valid hv hinc) h
        have := incList_mrVal hv hinc
        omega

theorem sweepList_pairwise {ss : List Nat} : ∀ (fuel : Nat) {ds : List Nat},
    ValidDigits ds ss →
    (sweepList ss fuel ds).Pairwise (fun a b => mrVal a ss < mrVal b ss) := by
  intro fuel
  induction fuel with
  | zero => intro ds _; simp [sweepList]
  | succ fuel ih =>
    intro ds hv
    simp only [sweepList]
    cases hinc : incList ds ss with
    | none => simp
    | some ds' =>
      refine List.Pairwise.cons ?_ (ih (incList_valid hv hinc))
      intro x hx
      have h1 := mrVal_le_of_mem_sweep fuel (incList_valid hv hinc) hx
      have h2 := incList_mrVal hv hinc
      omega

theorem sweepList_nodup {ss : List Nat} (fuel : Nat) {ds : List Nat}
    (hv : ValidDigits ds ss) : (sweepList ss fuel ds).Nodup := by
  have := sweepList_pairwise fuel hv
  exact this.imp (fun h => by intro he; subst he; exact lt_irrefl _ h)

/-! ## Simulation: `increment_test_index` is the digit odometer -/

/-- `gridLookup` at the name of the `pos`-th dimension returns that
dimension's candidate list (distinct names). -/
theorem gridLookup_at {params : Params} {pos : Nat}
    (hnd : (params.map Prod.fst).Nodup) (hp : pos < params.length) :
    gridLookup params ((params.map Prod.fst).get ⟨pos, by simpa using hp⟩) =
      some (params.get ⟨pos, hp⟩).2 := by
  unfold gridLookup
  have hg : (params.map Prod.fst).get ⟨pos, by simpa using hp⟩ =
      (params.get ⟨pos, hp⟩).1 := by simp
  rw [hg, find?_eq_get_of_nodup hp hnd]
  rfl

/-- Central simulation lemma: on a well-formed zip index, `incrementAux`
behaves as `incList` applied to the digits from `pos` on, the digits below
`pos` being untouched, and fails (with `OverflowError`) exactly when the
digit counter is exhausted. -/
theorem incrementAux_sim {params : Params} {prev fresh : Nat} :
    ∀ (k pos : Nat) (ds : List Nat),
      (params.map Prod.fst).Nodup →
      ds.length = params.length →
      pos + k = params.length →
      (incList (ds.drop pos) ((params.map fun p => p.2.length).drop pos) = none ∧
        incrementAux ((params.map Prod.fst).zip ds) params prev fresh pos k =
          .error .overflow) ∨
      (∃ r sid, incList (ds.drop pos) ((params.map fun p => p.2.length).drop pos) = some r ∧
        incrementAux ((params.map Prod.fst).zip ds) params prev fresh pos k =
          .ok ((params.map Prod.fst).zip (ds.take pos ++ r), sid)) := by
  intro k
  induction k with
  | zero =>
    intro pos ds hnd hlen hk
    left
    constructor
    · rw [List.drop_eq_nil_of_le (by omega), List.drop_eq_nil_of_le (by simp; omega)]
      rfl
    · rfl
  | succ k ih =>
    intro pos ds hnd hlen hk
    have hp : pos < params.length := by omega
    have hpn : pos < (params.map Prod.fst).length := by simpa using hp
    have hpd : pos < ds.length := by omega
    have hps : pos < (params.map fun p => p.2.length).length := by simpa using hp
    have hgl := gridLookup_at hnd hp
    have hdg := dictGet_zip hpn hpd hnd (by simpa using hlen)
    have hdrop : ds.drop pos = ds.get ⟨pos, hpd⟩ :: ds.drop (pos + 1) := by
      rw [List.drop_eq_getElem_cons hpd]
      rfl
    have hsdrop : (params.map fun p => p.2.length).drop pos =
        ((params.get ⟨pos, hp⟩).2).length :: (params.map fun p => p.2.length).drop (pos + 1) := by
      rw [List.drop_eq_getElem_cons hps]
      congr 1
      simp
    simp only [incrementAux]
    rw [dif_pos hpn]
    simp only [hgl, hdg]
    by_cases hv : ds.get ⟨pos, hpd⟩ + 1 < ((params.get ⟨pos, hp⟩).2).length
    · right
      refine ⟨(ds.get ⟨pos, hpd⟩ + 1) :: ds.drop (pos + 1), prev, ?_, ?_⟩
      · rw [hdrop, hsdrop]
        simp only [incList]
        rw [if_pos hv]
      · rw [if_pos hv]
        have hset : ds.set pos (ds.get ⟨pos, hpd⟩ + 1) =
            ds.take pos ++ (ds.get ⟨pos, hpd⟩ + 1) :: ds.drop (pos + 1) := by
          rw [List.set_eq_take_append_cons_drop, if_pos hpd]
        rw [dictInsert_zip hpn hnd (by simpa using hlen), hset]
    · rw [if_neg hv]
      have hins : dictInsert ((params.map Prod.fst).zip ds)
          ((params.map Prod.fst).get ⟨pos, hpn⟩) 0 =
          (params.map Prod.fst).zip (ds.set pos 0) := by
        rw [dictInsert_zip hpn hnd (by simpa using hlen)]
      have hlen' : (ds.set pos 0).length = params.length := by simpa using hlen
      have hk' : (pos + 1) + k = params.length := by omega
      have hdrop' : (ds.set pos 0).drop (pos + 1) = ds.drop (pos + 1) := by
        rw [List.drop_set_of_lt]
        omega
      have htake' : (ds.set pos 0).take (pos + 1) = ds.take pos ++ [0] := by
        rw [List.set_eq_take_append_cons_drop, if_pos hpd]
        rw [List.take_append_eq_append_take]
        rw [List.take_of_length_le (by rw [List.length_take]; omega)]
        congr 1
        have : (pos + 1) - (ds.take pos).length = 1 := by
          rw [List.length_take]; omega
        rw [this]
        rfl
      have hrec := ih (pos + 1) (ds.set pos 0) hnd hlen' hk'
      rw [hdrop'] at hrec
      rcases hrec with ⟨hnone, haux⟩ | ⟨r, sid, hsome, haux⟩
      · left
        constructor
        · rw [hdrop, hsdrop]
          simp only [incList]
          rw [if_neg hv, hnone]
        · rw [hins]
          cases hname : ((params.map Prod.fst).get ⟨pos, hpn⟩ == "cluster_throughput_mb_per_sec") with
          | true => rw [if_pos rfl, haux]
          | false => rw [if_neg (by simp), haux]
      · right
        have hidx : (ds.set pos 0).take (pos + 1) ++ r = ds.take pos ++ 0 :: r := by
          rw [htake']
          simp
        rw [htake'] at haux
        cases hname : ((params.map Prod.fst).get ⟨pos, hpn⟩ == "cluster_throughput_mb_per_sec") with
        | true =>
          refine ⟨0 :: r, fresh, ?_, ?_⟩
          · rw [hdrop, hsdrop]
            simp only [incList]
            rw [if_neg hv, hsome]
          · rw [hins]
            rw [if_pos rfl, haux]
            simp
        | false =>
          refine ⟨0 :: r, sid, ?_, ?_⟩
          · rw [hdrop, hsdrop]
            simp only [incList]
            rw [if_neg hv, hsome]
          · rw [hins]
            rw [if_neg (by simp), haux]
            simp

/-- Simulation at position `0`, phrased on the wrapper
`increment_test_index`. -/
theorem increment_sim {params : Params} {prev fresh : Nat} {ds : List Nat}
    (hnd : (params.map Prod.fst).Nodup) (hlen : ds.length = params.length) :
    (incList ds (params.map fun p => p.2.length) = none ∧
      increment_test_index ((params.map Prod.fst).zip ds) params prev fresh 0 =
        .error .overflow) ∨
    (∃ r sid, incList ds (params.map fun p => p.2.length) = some r ∧
      increment_test_index ((params.map Prod.fst).zip ds) params prev fresh 0 =
        .ok ((params.map Prod.fst).zip r, sid)) := by
  have h := @incrementAux_sim params prev fresh
    params.length 0 ds hnd hlen (by omega)
  simpa [increment_test_index] using h

/-- The skip-free sweep trace is the digit sweep, dimension names zipped
back on. -/
theorem sweep_sim {params : Params} {prev fresh : Nat}
    (hnd : (params.map Prod.fst).Nodup) :
    ∀ (fuel : Nat) {ds : List Nat},
      ValidDigits ds (params.map fun p => p.2.length) →
      sweepIndexes params prev fresh fuel ((params.map Prod.fst).zip ds) =
        (sweepList (params.map fun p => p.2.length) fuel ds).map
          ((params.map Prod.fst).zip ·) := by
  intro fuel
  induction fuel with
  | zero => intro ds _; rfl
  | succ fuel ih =>
    intro ds hv
    have hlen : ds.length = params.length := by
      have := hv.length_eq
      simpa using this
    simp only [sweepIndexes, sweepList, List.map_cons]
    congr 1
    rcases @increment_sim params prev fresh ds hnd hlen with
      ⟨hnone, haux⟩ | ⟨r, sid, hsome, haux⟩
    · rw [hnone, haux]
      rfl
    · rw [hsome, haux]
      exact ih (incList_valid hv hsome)

/-- The Python `\x7bkey: 0 for key in ...\x7d` initial index is the all-zero
digit vector zipped with the names. -/
theorem init_index_eq_zip {params : Params} :
    params.map (fun p => (p.1, 0)) =
      (params.map Prod.fst).zip (List.replicate params.length 0) := by
  induction params with
  | nil => rfl
  | cons p ps ih => simp [List.replicate_succ, ih]

/-- The all-zero digit vector is valid for a grid whose candidate lists are
nonempty. -/
theorem replicate_zero_valid {params : Params} (hne : ∀ p ∈ params, p.2 ≠ []) :
    ValidDigits (List.replicate params.length 0)
      (params.map fun p => p.2.length) := by
  induction params with
  | nil => exact List.Forall₂.nil
  | cons p ps ih =>
    simp only [List.length_cons, List.replicate_succ, List.map_cons]
    refine List.Forall₂.cons ?_ (ih fun q hq => hne q (List.mem_cons_of_mem _ hq))
    have h1 := hne p (List.mem_cons_self _ _)
    have h2 : p.2.length ≠ 0 := by
      simpa [List.length_eq_zero] using h1
    omega

/-- Series-id characterisation of one `incrementAux` call: the returned
series id is the fresh draw exactly when the carry runs through every
position up to and including the throughput dimension (i.e. the throughput
dimension is reset), and the previous id otherwise. -/
theorem incrementAux_series {params : Params} {prev fresh : Nat} :
    ∀ (k pos : Nat) (ds : List Nat) {ti : Nat} {idx : Index} {sid : Nat},
      (params.map Prod.fst).Nodup →
      ds.length = params.length →
      pos + k = params.length →
      (params.map Prod.fst).get? ti = some "cluster_throughput_mb_per_sec" →
      pos ≤ ti →
      incrementAux ((params.map Prod.fst).zip ds) params prev fresh pos k = .ok (idx, sid) →
      ((∀ j, pos ≤ j → j ≤ ti →
          (params.map fun p => p.2.length).getD j 0 ≤ ds.getD j 0 + 1) → sid = fresh) ∧
      ((¬ ∀ j, pos ≤ j → j ≤ ti →
          (params.map fun p => p.2.length).getD j 0 ≤ ds.getD j 0 + 1) → sid = prev) := by
  intro k
  induction k with
  | zero =>
    intro pos ds ti idx sid hnd hlen hk hti hpos h
    have hti' : ti < (params.map Prod.fst).length := List.get?_eq_some.mp hti |>.1
    simp only [List.length_map] at hti'
    omega
  | succ k ih =>
    intro pos ds ti idx sid hnd hlen hk hti hpos h
    have hp : pos < params.length := by omega
    have hpn : pos < (params.map Prod.fst).length := by simpa using hp
    have hpd : pos < ds.length := by omega
    have hps : pos < (params.map fun p => p.2.length).length := by simpa using hp
    have hgl := gridLookup_at hnd hp
    have hdg := dictGet_zip hpn hpd hnd (by simpa using hlen)
    have hgetd : (params.map fun p => p.2.length).getD pos 0 =
        ((params.get ⟨pos, hp⟩).2).length := by
      rw [List.getD_eq_get _ _ hps]
      simp
    have hdsd : ds.getD pos 0 = ds.get ⟨pos, hpd⟩ := List.getD_eq_get _ _ hpd
    simp only [incrementAux] at h
    rw [dif_pos hpn] at h
    simp only [hgl, hdg] at h
    by_cases hv : ds.get ⟨pos, hpd⟩ + 1 < ((params.get ⟨pos, hp⟩).2).length
    · rw [if_pos hv] at h
      cases h
      constructor
      · intro hc
        exfalso
        have := hc pos (le_refl pos) hpos
        rw [hgetd, hdsd] at this
        omega
      · intro _
        rfl
    · rw [if_neg hv] at h
      have hcondpos : (params.map fun p => p.2.length).getD pos 0 ≤ ds.getD pos 0 + 1 := by
        rw [hgetd, hdsd]
        omega
      have hins : dictInsert ((params.map Prod.fst).zip ds)
          ((params.map Prod.fst).get ⟨pos, hpn⟩) 0 =
          (params.map Prod.fst).zip (ds.set pos 0) :=
        dictInsert_zip hpn hnd (by simpa using hlen)
      rw [hins] at h
      have hlen' : (ds.set pos 0).length = params.length := by simpa using hlen
      have hk' : (pos + 1) + k = params.length := by omega
      have hgetd_set : ∀ j, pos + 1 ≤ j → (ds.set pos 0).getD j 0 = ds.getD j 0 := by
        intro j hj
        unfold List.getD
        rw [List.get?_set_ne]
        omega
      cases hname : ((params.map Prod.fst).get ⟨pos, hpn⟩ == "cluster_throughput_mb_per_sec") with
      | true =>
        have hpt : pos = ti := by
          have heq : (params.map Prod.fst).get ⟨pos, hpn⟩ =
              "cluster_throughput_mb_per_sec" := by
            exact beq_iff_eq.mp hname
          have hgt : (params.map Prod.fst).get? pos = some "cluster_throughput_mb_per_sec" := by
            rw [List.get?_eq_get hpn, heq]
          have hinj := List.get?_inj (by simpa using hpn) hnd (hgt.trans hti.symm)
          exact hinj
        rw [if_pos hname] at h
        have hcond : ∀ j, pos ≤ j → j ≤ ti →
            (params.map fun p => p.2.length).getD j 0 ≤ ds.getD j 0 + 1 := by
          intro j h1 h2
          have : j = pos := by omega
          subst this
          exact hcondpos
        cases hrec : incrementAux ((params.map Prod.fst).zip (ds.set pos 0))
            params prev fresh (pos + 1) k with
        | ok u =>
          rw [hrec] at h
          cases u
          cases h
          exact ⟨fun _ => rfl, fun hc => (hc hcond).elim⟩
        | error e =>
          rw [hrec] at h
          cases h
      | false =>
        have hpt : pos ≠ ti := by
          intro he
          subst he
          rw [List.get?_eq_get hpn] at hti
          have heq : (params.map Prod.fst).get ⟨pos, hpn⟩ = "cluster_throughput_mb_per_sec" :=
            Option.some_injective _ hti
          rw [heq] at hname
          simp at hname
        have hname' : ¬ (((params.map Prod.fst).get ⟨pos, hpn⟩ ==
            "cluster_throughput_mb_per_sec") = true) := by
          simp only [hname]
          exact Bool.false_ne_true
        rw [if_neg hname'] at h
        have hrec := ih (pos + 1) (ds.set pos 0) hnd hlen' hk' hti (by omega) h
        have hiff : (∀ j, pos ≤ j → j ≤ ti →
            (params.map fun p => p.2.length).getD j 0 ≤ ds.getD j 0 + 1) ↔
            (∀ j, pos + 1 ≤ j → j ≤ ti →
              (params.map fun p => p.2.length).getD j 0 ≤ (ds.set pos 0).getD j 0 + 1) := by
          constructor
          · intro hc j h1 h2
            rw [hgetd_set j h1]
            exact hc j (by omega) h2
          · intro hc j h1 h2
            by_cases hje : j = pos
            · subst hje
              exact hcondpos
            · have := hc j (by omega) h2
              rw [hgetd_set j (by omega)] at this
              exact this
        constructor
        · intro hc
          exact hrec.1 (hiff.mp hc)
        · intro hc
          exact hrec.2 (fun hc' => hc (hiff.mpr hc'))

/-- `list.index` on a duplicate-free list finds the unique position. -/
theorem findIdx_eq_of_nodup {names : List String} :
    ∀ {ti : Nat} {a : String}, names.Nodup → names.get? ti = some a →
      names.findIdx (fun n => n == a) = ti := by
  induction names with
  | nil => intro ti a _ h; simp at h
  | cons n ns ih =>
    intro ti a hnd hget
    simp only [List.nodup_cons] at hnd
    cases ti with
    | zero =>
      simp only [List.get?] at hget
      cases hget
      simp [List.findIdx_cons]
    | succ ti =>
      simp only [List.get?] at hget
      have hmem : a ∈ ns := List.get?_mem hget
      have hne : (n == a) = false := by
        rw [beq_eq_false_iff_ne]
        intro he
        exact hnd.1 (he ▸ hmem)
      rw [List.findIdx_cons, hne, cond_false, ih hnd.2 hget]

/-- Merging the bulk-reset dict `\x7bname: 0 for the first m names\x7d` into a
zip index zeroes the first `m` digits. -/
theorem dictMergeAll_reset {names : List String} {ds : List Nat} :
    ∀ (m : Nat), names.Nodup → ds.length = names.length → m ≤ names.length →
      dictMergeAll (names.zip ds) ((names.take m).map (fun name => (name, 0))) =
        names.zip (List.replicate m 0 ++ ds.drop m) := by
  intro m
  induction m with
  | zero =>
    intro _ _ _
    simp [dictMergeAll]
  | succ m ih =>
    intro hnd hlen hm
    have hm' : m < names.length := by omega
    have hmd : m < ds.length := by omega
    have htake : names.take (m + 1) = names.take m ++ [names.get ⟨m, hm'⟩] := by
      rw [List.take_succ, List.getElem?_eq_getElem hm']
      simp [List.get_eq_getElem]
    rw [htake, List.map_append, dictMergeAll, List.foldl_append]
    simp only [List.map_cons, List.map_nil, List.foldl_cons, List.foldl_nil]
    have hih := ih hnd hlen (by omega)
    rw [dictMergeAll] at hih
    rw [hih]
    have hlen2 : (List.replicate m 0 ++ ds.drop m).length = names.length := by
      simp
      omega
    rw [dictInsert_zip hm' hnd hlen2]
    congr 1
    have hd : ds.drop m = ds.get ⟨m, hmd⟩ :: ds.drop (m + 1) := by
      rw [List.drop_eq_getElem_cons hmd]
      rfl
    rw [hd]
    have hset : (List.replicate m 0 ++ ds.get ⟨m, hmd⟩ :: ds.drop (m + 1)).set m 0 =
        List.replicate m 0 ++ 0 :: ds.drop (m + 1) := by
      rw [List.set_append_right _ _ (by simp)]
      congr 1
      simp only [List.length_replicate, Nat.sub_self]
      rfl
    rw [hset, List.replicate_succ' m 0]
    simp

/-- Simulation of `skip_remaining_throughput`: every dimension up to and
including the throughput dimension is reset to `0`, the odometer is invoked
just above the throughput dimension (keeping the values of the dimensions
above unless the increment carries), and the returned series id is the fresh
draw. -/
theorem skip_sim {params : Params} {prev fresh : Nat} {ds : List Nat} {ti : Nat}
    (hnd : (params.map Prod.fst).Nodup)
    (hlen : ds.length = params.length)
    (hti : (params.map Prod.fst).get? ti = some "cluster_throughput_mb_per_sec") :
    skip_remaining_throughput ((params.map Prod.fst).zip ds) params prev fresh =
      match incList (ds.drop (ti + 1)) ((params.map fun p => p.2.length).drop (ti + 1)) with
      | some r => .ok ((params.map Prod.fst).zip (List.replicate (ti + 1) 0 ++ r), fresh)
      | none => .error .overflow := by
  have hti' : ti < (params.map Prod.fst).length := (List.get?_eq_some.mp hti).1
  have htimem : "cluster_throughput_mb_per_sec" ∈ params.map Prod.fst :=
    List.get?_mem hti
  have hfind : (params.map Prod.fst).findIdx
      (fun n => n == "cluster_throughput_mb_per_sec") = ti :=
    findIdx_eq_of_nodup hnd hti
  have hfst : ((params.map Prod.fst).zip ds).map Prod.fst = params.map Prod.fst :=
    List.map_fst_zip _ _ (by simp; omega)
  simp only [skip_remaining_throughput]
  rw [if_pos htimem, hfind, hfst]
  have hmerge := @dictMergeAll_reset (params.map Prod.fst) ds
    (ti + 1) hnd (by simpa using hlen) (by simpa using hti')
  rw [hmerge]
  have hlen2 : (List.replicate (ti + 1) 0 ++ ds.drop (ti + 1)).length = params.length := by
    simp
    simp at hlen hti'
    omega
  have hsim := @incrementAux_sim params prev fresh
    (params.length - (ti + 1)) (ti + 1) (List.replicate (ti + 1) 0 ++ ds.drop (ti + 1))
    hnd hlen2 (by simp at hti'; omega)
  have hdropeq : (List.replicate (ti + 1) 0 ++ ds.drop (ti + 1)).drop (ti + 1) =
      ds.drop (ti + 1) :=
    List.drop_left' (by simp)
  have htakeeq : (List.replicate (ti + 1) 0 ++ ds.drop (ti + 1)).take (ti + 1) =
      List.replicate (ti + 1) 0 :=
    List.take_left' (by simp)
  rw [hdropeq, htakeeq] at hsim
  show (match increment_test_index ((params.map Prod.fst).zip
      (List.replicate (ti + 1) 0 ++ ds.drop (ti + 1))) params prev fresh (ti + 1) with
    | .ok (updated_index, _) => Except.ok (updated_index, fresh)
    | .error e => Except.error e) = _
  unfold increment_test_index
  rcases hsim with ⟨hnone, haux⟩ | ⟨r, sid, hsome, haux⟩
  · rw [haux, hnone]
  · rw [haux, hsome]

/-! ## Materializer lemmas -/

theorem throughput_quantities_pos {t np gs dur rs : Int}
    (ht : 0 < t) (hnp : np ≠ 0) (hrs : rs ≠ 0) :
    throughput_quantities t np gs dur rs = some ((t * 1024 ^ 2).fdiv np,
      (if 0 < gs then (t * 1024 ^ 2).fdiv gs else 0),
      ((t * 1024 ^ 2).fdiv np * dur).fdiv rs,
      ((if 0 < gs then (t * 1024 ^ 2).fdiv gs else 0) * dur).fdiv rs) := by
  simp only [throughput_quantities, pyFloorDiv, if_pos ht]
  by_cases hgs : 0 < gs
  · have hgs0 : gs ≠ 0 := by omega
    simp [hgs, hgs0, hnp, hrs]
  · simp [hgs, hnp, hrs]

theorem throughput_quantities_nonpos {t np gs dur rs : Int} (ht : ¬ 0 < t) :
    throughput_quantities t np gs dur rs = some (-1, -1, 2147483647, 2147483647) := by
  simp only [throughput_quantities, if_neg ht]

/-- Unfolding of the successful path of `update_parameters`: when the raw
record materializes and carries well-typed required entries, the result event
holds the given index, the given ids, and the derived quantities of
`throughput_quantities`. -/
theorem update_parameters_some {spec : TestSpec} {idx : Index} {tid sid : Nat}
    {raw : List (String × PVal)} {rs t np g gs dur : Int}
    (hraw : materializeRaw spec idx = some raw)
    (hrs : rawNum raw ("record_size_byte") = some rs)
    (ht : rawNum raw ("cluster_throughput_mb_per_sec") = some t)
    (hnp : rawNum raw ("num_producers") = some np)
    (hg : rawGroups raw ("consumer_groups") = some (g, gs))
    (hdur : rawNum raw ("duration_sec") = some dur)
    (hrs0 : rs ≠ 0) (hnp0 : np ≠ 0) :
    ∃ mp : MatParams,
      update_parameters spec (some idx) tid sid = some
        { test_specification := spec,
          current_test := some { index := idx, parameters := mp },
          producer_result := none, all_tests_completed := false } ∧
      mp.raw = raw ∧ mp.test_id = tid ∧ mp.throughput_series_id = sid ∧
      mp.num_jobs = np + g * gs ∧
      ∃ cb, throughput_quantities t np gs dur rs =
        some (mp.producer_throughput, cb, mp.num_records_producer, mp.num_records_consumer) := by
  obtain ⟨pt, cb, nrp, nrc, hq⟩ : ∃ pt cb nrp nrc,
      throughput_quantities t np gs dur rs = some (pt, cb, nrp, nrc) := by
    by_cases ht0 : 0 < t
    · exact ⟨_, _, _, _, throughput_quantities_pos ht0 hnp0 hrs0⟩
    · exact ⟨_, _, _, _, throughput_quantities_nonpos ht0⟩
  by_cases hpt : pt > 0
  · refine ⟨{ raw := raw, num_jobs := np + g * gs, producer_throughput := pt,
              records_per_sec := max 1 (pt.fdiv rs), num_records_producer := nrp,
              num_records_consumer := nrc, test_id := tid,
              throughput_series_id := sid,
              topic_name := make_topic_name tid sid idx,
              depletion_topic_name := "test-id-" ++ toString tid ++
                "--throughput-series-id-" ++ toString sid ++ "--depletion" },
      ?_, rfl, rfl, rfl, rfl, ⟨cb, by rw [hq]⟩⟩
    simp only [update_parameters, hraw, hrs, ht, hnp, hg, hdur, hq,
      Option.bind_eq_bind, Option.some_bind, if_pos hpt, pyFloorDiv,
      if_neg hrs0, Option.map_some]
    rfl
  · refine ⟨{ raw := raw, num_jobs := np + g * gs, producer_throughput := pt,
              records_per_sec := -1, num_records_producer := nrp,
              num_records_consumer := nrc, test_id := tid,
              throughput_series_id := sid,
              topic_name := make_topic_name tid sid idx,
              depletion_topic_name := "test-id-" ++ toString tid ++
                "--throughput-series-id-" ++ toString sid ++ "--depletion" },
      ?_, rfl, rfl, rfl, rfl, ⟨cb, by rw [hq]⟩⟩
    simp only [update_parameters, hraw, hrs, ht, hnp, hg, hdur, hq,
      Option.bind_eq_bind, Option.some_bind, if_neg hpt]
    rfl

/-- Option-valued `mapM` succeeds elementwise. -/
theorem mapM_option_exists {α β : Type} (R : α → β → Prop) {f : α → Option β} :
    ∀ {l : List α}, (∀ x ∈ l, ∃ y, f x = some y ∧ R x y) →
      ∃ r, l.mapM f = some r ∧ List.Forall₂ R l r := by
  intro l
  induction l with
  | nil => intro _; exact ⟨[], rfl, List.Forall₂.nil⟩
  | cons x l ih =>
    intro h
    obtain ⟨y, hy, hR⟩ := h x (List.mem_cons_self _ _)
    obtain ⟨r, hr, hF⟩ := ih (fun z hz => h z (List.mem_cons_of_mem _ hz))
    refine ⟨y :: r, ?_, List.Forall₂.cons hR hF⟩
    rw [List.mapM_cons, hy, hr]
    rfl

theorem map_fst_of_forall₂ {α β γ : Type} {l : List (γ × α)} {r : List (γ × β)}
    {Q : γ × α → γ × β → Prop} (hfst : ∀ x y, Q x y → y.1 = x.1) :
    List.Forall₂ Q l r → r.map Prod.fst = l.map Prod.fst := by
  intro h
  induction h with
  | nil => rfl
  | cons hxy _ ih => simp [ih, hfst _ _ hxy]

/-- Materialization at a well-formed zip index succeeds, and the raw record
can be looked up by any grid key. -/
theorem materializeRaw_spec {spec : TestSpec} {ds : List Nat}
    (hnd : (spec.parameters.map Prod.fst).Nodup)
    (hv : ValidDigits ds (spec.parameters.map fun p => p.2.length)) :
    ∃ raw, materializeRaw spec ((spec.parameters.map Prod.fst).zip ds) = some raw ∧
      raw.map Prod.fst = spec.parameters.map Prod.fst ∧
      ∀ key cands, gridLookup spec.parameters key = some cands →
        ∃ v, raw.find? (fun p => p.1 == key) = some (key, v) ∧ v ∈ cands := by
  have hlen : ds.length = spec.parameters.length := by
    have := hv.length_eq
    simpa using this
  have hget := (List.forall₂_iff_get.mp hv).2
  have hside : ∀ x ∈ (spec.parameters.map Prod.fst).zip ds, ∃ y,
      (do
        let candidates ← gridLookup spec.parameters x.1
        let v ← candidates.get? x.2
        pure (x.1, v) : Option (String × PVal)) = some y ∧
      (y.1 = x.1 ∧ ∃ cands, gridLookup spec.parameters x.1 = some cands ∧ y.2 ∈ cands) := by
    intro x hx
    obtain ⟨⟨j, hjz⟩, hgx⟩ := List.mem_iff_get.mp hx
    have hjp : j < spec.parameters.length := by
      rw [List.length_zip] at hjz
      simp at hjz
      omega
    have hjm : j < (spec.parameters.map Prod.fst).length := by simpa using hjp
    have hjd : j < ds.length := by omega
    have hx2 : x = ((spec.parameters.map Prod.fst).get ⟨j, hjm⟩, ds.get ⟨j, hjd⟩) := by
      rw [← hgx]
      exact get_zip_eq hjm hjd
    have hcand := gridLookup_at hnd hjp
    have hdj : ds.get ⟨j, hjd⟩ < ((spec.parameters.get ⟨j, hjp⟩).2).length := by
      have := hget j hjd (by simpa using hjp)
      simpa using this
    refine ⟨(x.1, ((spec.parameters.get ⟨j, hjp⟩).2).get ⟨ds.get ⟨j, hjd⟩, hdj⟩),
      ?_, rfl, ?_⟩
    · rw [hx2]
      show (gridLookup spec.parameters ((spec.parameters.map Prod.fst).get ⟨j, hjm⟩)).bind _ = _
      rw [hcand]
      simp only [Option.some_bind]
      rw [List.get?_eq_get hdj]
      rfl
    · refine ⟨(spec.parameters.get ⟨j, hjp⟩).2, ?_, List.get_mem _ _ _⟩
      rw [hx2]
      exact hcand
  obtain ⟨raw, hraw, hF⟩ := mapM_option_exists
    (fun (x : String × Nat) (y : String × PVal) =>
      y.1 = x.1 ∧ ∃ cands, gridLookup spec.parameters x.1 = some cands ∧ y.2 ∈ cands)
    (l := (spec.parameters.map Prod.fst).zip ds) hside
  have hfst : raw.map Prod.fst = spec.parameters.map Prod.fst := by
    have h1 := map_fst_of_forall₂ (fun x y h => h.1) hF
    rw [h1, List.map_fst_zip]
    simpa using Nat.le_of_eq hlen.symm
  refine ⟨raw, hraw, hfst, ?_⟩
  intro key cands hkey
  obtain ⟨pr, hfd, hsnd⟩ : ∃ pr, spec.parameters.find? (fun p => p.1 == key) = some pr ∧
      pr.2 = cands := by
    unfold gridLookup at hkey
    cases hfd : spec.parameters.find? (fun p => p.1 == key) with
    | none => rw [hfd] at hkey; cases hkey
    | some pr =>
      rw [hfd] at hkey
      cases hkey
      exact ⟨pr, rfl, rfl⟩
  have hprkey : pr.1 = key := by
    have hp0 := List.find?_some hfd
    simpa using hp0
  obtain ⟨⟨j, hjp⟩, hgp⟩ := List.mem_iff_get.mp (List.mem_of_find?_eq_some hfd)
  have hjm : j < (spec.parameters.map Prod.fst).length := by simpa using hjp
  have hjd : j < ds.length := by omega
  have hjr : j < raw.length := by
    have h2 := hF.length_eq
    rw [List.length_zip] at h2
    simp at h2 ⊢
    omega
  have hjz : j < ((spec.parameters.map Prod.fst).zip ds).length := by
    rw [List.length_zip]
    simp
    omega
  have hQ := (List.forall₂_iff_get.mp hF).2 j hjz hjr
  have hzj := get_zip_eq hjm hjd
  rw [hzj] at hQ
  have hname : (spec.parameters.map Prod.fst).get ⟨j, hjm⟩ = key := by
    have h3 : (spec.parameters.map Prod.fst).get ⟨j, hjm⟩ =
        (spec.parameters.get ⟨j, hjp⟩).1 := by simp
    rw [h3, hgp, hprkey]
  have hrawj1 : (raw.get ⟨j, hjr⟩).1 = key := hQ.1.trans hname
  have hfind := find?_eq_get_of_nodup hjr (by rw [hfst]; exact hnd)
  rw [hrawj1] at hfind
  refine ⟨(raw.get ⟨j, hjr⟩).2, ?_, ?_⟩
  · have hpair : raw.get ⟨j, hjr⟩ = (key, (raw.get ⟨j, hjr⟩).2) := by
      rw [← hrawj1]
    rw [hfind, ← hpair]
  · obtain ⟨cands2, hc1, hc2⟩ := hQ.2
    have hc1k : gridLookup spec.parameters key = some cands2 := hname ▸ hc1
    rw [hkey] at hc1k
    cases hc1k
    exact hc2

/-! ## Driver-loop lemmas -/

/-- A numeric candidate. -/
def isNum : PVal → Bool
  | .num _ => true
  | _ => false

/-- A nonzero numeric candidate (usable as a divisor). -/
def isNonzeroNum : PVal → Bool
  | .num n => decide (n ≠ 0)
  | _ => false

/-- A consumer-group shape candidate. -/
def isGroups : PVal → Bool
  | .groups _ _ => true
  | _ => false

/-- A grid on which every step of the driver loop materializes: distinct
dimension names, nonempty candidate lists, and well-typed required entries. -/
def goodGrid (params : Params) : Bool :=
  decide ((params.map Prod.fst).Nodup) &&
  params.all (fun p => !p.2.isEmpty) &&
  (match gridLookup params ("record_size_byte") with
   | some vs => vs.all isNonzeroNum
   | none => false) &&
  (match gridLookup params ("cluster_throughput_mb_per_sec") with
   | some vs => vs.all isNum
   | none => false) &&
  (match gridLookup params ("num_producers") with
   | some vs => vs.all isNonzeroNum
   | none => false) &&
  (match gridLookup params ("consumer_groups") with
   | some vs => vs.all isGroups
   | none => false) &&
  (match gridLookup params ("duration_sec") with
   | some vs => vs.all isNum
   | none => false)

theorem goodGrid_nodup {params : Params} (h : goodGrid params = true) :
    (params.map Prod.fst).Nodup := by
  simp only [goodGrid, Bool.and_eq_true, decide_eq_true_eq] at h
  exact h.1.1.1.1.1.1

theorem goodGrid_nonempty {params : Params} (h : goodGrid params = true) :
    ∀ p ∈ params, p.2 ≠ [] := by
  simp only [goodGrid, Bool.and_eq_true, decide_eq_true_eq, List.all_eq_true] at h
  intro p hp
  have := h.1.1.1.1.1.2 p hp
  simpa [List.isEmpty_iff] using this

theorem goodGrid_key {params : Params} (h : goodGrid params = true)
    (key : String) (pred : PVal → Bool)
    (hsel : (key = "record_size_byte" ∧ pred = isNonzeroNum) ∨
            (key = "cluster_throughput_mb_per_sec" ∧ pred = isNum) ∨
            (key = "num_producers" ∧ pred = isNonzeroNum) ∨
            (key = "consumer_groups" ∧ pred = isGroups) ∨
            (key = "duration_sec" ∧ pred = isNum)) :
    ∃ vs, gridLookup params key = some vs ∧ ∀ v ∈ vs, pred v = true := by
  simp only [goodGrid, Bool.and_eq_true, decide_eq_true_eq] at h
  obtain ⟨⟨⟨⟨⟨⟨_, _⟩, h3⟩, h4⟩, h5⟩, h6⟩, h7⟩ := h
  rcases hsel with ⟨hk, hp⟩ | ⟨hk, hp⟩ | ⟨hk, hp⟩ | ⟨hk, hp⟩ | ⟨hk, hp⟩ <;>
    subst hk <;> subst hp
  · revert h3
    cases hgl : gridLookup params ("record_size_byte") with
    | none => intro h; cases h
    | some vs => intro h; exact ⟨vs, rfl, List.all_eq_true.mp h⟩
  · revert h4
    cases hgl : gridLookup params ("cluster_throughput_mb_per_sec") with
    | none => intro h; cases h
    | some vs => intro h; exact ⟨vs, rfl, List.all_eq_true.mp h⟩
  · revert h5
    cases hgl : gridLookup params ("num_producers") with
    | none => intro h; cases h
    | some vs => intro h; exact ⟨vs, rfl, List.all_eq_true.mp h⟩
  · revert h6
    cases hgl : gridLookup params ("consumer_groups") with
    | none => intro h; cases h
    | some vs => intro h; exact ⟨vs, rfl, List.all_eq_true.mp h⟩
  · revert h7
    cases hgl : gridLookup params ("duration_sec") with
    | none => intro h; cases h
    | some vs => intro h; exact ⟨vs, rfl, List.all_eq_true.mp h⟩

/-- On a good grid, `update_parameters` succeeds at every well-formed index
and yields a fresh in-flight event. -/
theorem update_zip_success {spec : TestSpec} {ds : List Nat} {tid sid : Nat}
    (hg : goodGrid spec.parameters = true)
    (hv : ValidDigits ds (spec.parameters.map fun p => p.2.length)) :
    ∃ mp, update_parameters spec (some ((spec.parameters.map Prod.fst).zip ds)) tid sid =
      some { test_specification := spec,
             current_test := some { index := (spec.parameters.map Prod.fst).zip ds,
                                    parameters := mp },
             producer_result := none, all_tests_completed := false } := by
  have hnd := goodGrid_nodup hg
  obtain ⟨raw, hraw, hfst, hlook⟩ := materializeRaw_spec hnd hv
  have hnum : ∀ key, (∃ vs, gridLookup spec.parameters key = some vs ∧
      ∀ v ∈ vs, isNonzeroNum v = true) →
      ∃ n : Int, n ≠ 0 ∧ rawNum raw key = some n := by
    intro key ⟨vs, hgl, hall⟩
    obtain ⟨v, hfind, hmem⟩ := hlook key vs hgl
    have := hall v hmem
    cases v with
    | num n =>
      refine ⟨n, by simpa [isNonzeroNum] using this, ?_⟩
      unfold rawNum
      rw [hfind]
    | str s => simp [isNonzeroNum] at this
    | groups a b => simp [isNonzeroNum] at this
  have hnum' : ∀ key, (∃ vs, gridLookup spec.parameters key = some vs ∧
      ∀ v ∈ vs, isNum v = true) →
      ∃ n : Int, rawNum raw key = some n := by
    intro key ⟨vs, hgl, hall⟩
    obtain ⟨v, hfind, hmem⟩ := hlook key vs hgl
    have := hall v hmem
    cases v with
    | num n =>
      refine ⟨n, ?_⟩
      unfold rawNum
      rw [hfind]
    | str s => simp [isNum] at this
    | groups a b => simp [isNum] at this
  obtain ⟨rs, hrs0, hrs⟩ := hnum _ (goodGrid_key hg ("record_size_byte") isNonzeroNum
    (Or.inl ⟨rfl, rfl⟩))
  obtain ⟨t, ht⟩ := hnum' _ (goodGrid_key hg ("cluster_throughput_mb_per_sec") isNum
    (Or.inr (Or.inl ⟨rfl, rfl⟩)))
  obtain ⟨np, hnp0, hnp⟩ := hnum _ (goodGrid_key hg ("num_producers") isNonzeroNum
    (Or.inr (Or.inr (Or.inl ⟨rfl, rfl⟩))))
  obtain ⟨dur, hdur⟩ := hnum' _ (goodGrid_key hg ("duration_sec") isNum
    (Or.inr (Or.inr (Or.inr (Or.inr ⟨rfl, rfl⟩)))))
  obtain ⟨g, gs, hgr⟩ : ∃ g gs : Int, rawGroups raw ("consumer_groups") = some (g, gs) := by
    obtain ⟨vs, hgl, hall⟩ := goodGrid_key hg ("consumer_groups") isGroups
      (Or.inr (Or.inr (Or.inr (Or.inl ⟨rfl, rfl⟩))))
    obtain ⟨v, hfind, hmem⟩ := hlook _ vs hgl
    have := hall v hmem
    cases v with
    | num n => simp [isGroups] at this
    | str s => simp [isGroups] at this
    | groups a b =>
      refine ⟨a, b, ?_⟩
      unfold rawGroups
      rw [hfind]
  obtain ⟨mp, hupd, _⟩ := update_parameters_some hraw hrs ht hnp hgr hdur hrs0 hnp0
  exact ⟨mp, hupd⟩

/-- Invariant on the event threaded through the driver loop. -/
def EventOK (spec : TestSpec) (ev : Event) : Prop :=
  ev.test_specification = spec ∧
  (ev.current_test = none ∨
    ∃ ct ds, ev.current_test = some ct ∧
      ct.index = (spec.parameters.map Prod.fst).zip ds ∧
      ValidDigits ds (spec.parameters.map fun p => p.2.length))

/-- With a good grid and no skip expression, every step of
`increment_index_and_update_parameters` succeeds from an `EventOK` state. -/
theorem step_success {spec : TestSpec} {ev : Event} {fS fT : Nat}
    (hg : goodGrid spec.parameters = true)
    (hskip : spec.skip_remaining_throughput = none)
    (hok : EventOK spec ev) :
    ∃ ev', increment_index_and_update_parameters ev fS fT = some ev' ∧
      ev'.test_specification = spec ∧
      (ev'.all_tests_completed = true ∨
        (ev'.all_tests_completed = false ∧ ∃ ct ds, ev'.current_test = some ct ∧
          ct.index = (spec.parameters.map Prod.fst).zip ds ∧
          ValidDigits ds (spec.parameters.map fun p => p.2.length))) := by
  obtain ⟨hts, hcur⟩ := hok
  rcases hcur with hnone | ⟨ct, ds, hsome, hidx, hvd⟩
  · simp only [increment_index_and_update_parameters, hnone, hts]
    rw [init_index_eq_zip]
    obtain ⟨mp, hupd⟩ := @update_zip_success spec _ fT fS hg
      (replicate_zero_valid (goodGrid_nonempty hg))
    rw [hupd]
    refine ⟨_, rfl, rfl, Or.inr ⟨rfl, _, _, rfl, rfl, replicate_zero_valid (goodGrid_nonempty hg)⟩⟩
  · simp only [increment_index_and_update_parameters, hsome, hts, hskip]
    have hlen : ds.length = spec.parameters.length := by
      have := hvd.length_eq
      simpa using this
    rcases @increment_sim spec.parameters ct.parameters.throughput_series_id fS ds
      (goodGrid_nodup hg) hlen with ⟨hnone2, haux⟩ | ⟨r, sid, hsome2, haux⟩
    · simp only [incrementArm, hidx, haux]
      rw [if_neg Bool.false_ne_true]
      exact ⟨_, rfl, rfl, Or.inl rfl⟩
    · simp only [incrementArm, hidx, haux]
      rw [if_neg Bool.false_ne_true]
      obtain ⟨mp, hupd⟩ := @update_zip_success spec r fT sid hg
        (incList_valid hvd hsome2)
      exact ⟨_, hupd, rfl, Or.inr ⟨rfl, _, _, rfl, rfl, incList_valid hvd hsome2⟩⟩

/-- With a good grid and no skip expression the driver loop never raises. -/
theorem suite_success {spec : TestSpec}
    (hg : goodGrid spec.parameters = true)
    (hskip : spec.skip_remaining_throughput = none)
    (feedback : Nat → List ProducerResult) (rndS rndT : Nat → Nat) :
    ∀ (remaining count : Nat) (ev : Event) (acc : List MatParams), EventOK spec ev →
      (suiteLoop feedback rndS rndT remaining count ev acc).isSome := by
  intro remaining
  induction remaining with
  | zero =>
    intro count ev acc _
    rfl
  | succ remaining ih =>
    intro count ev acc hok
    obtain ⟨ev', hstep, hts', hcases⟩ :=
      @step_success spec ev (rndS count) (rndT count) hg hskip hok
    simp only [suiteLoop, Option.bind_eq_bind, hstep, Option.some_bind]
    rcases hcases with hdone | ⟨hflag, ct, ds, hcur, hidx, hvd⟩
    · simp [hdone]
    · simp only [hflag, Bool.false_eq_true, if_false, hcur, Option.some_bind, hts', hskip]
      exact ih (count + 1) ev' (acc ++ [ct.parameters]) ⟨hts', Or.inr ⟨ct, ds, hcur, hidx, hvd⟩⟩

/-- The driver loop returns at most `acc + remaining` results. -/
theorem suiteLoop_length {feedback : Nat → List ProducerResult} {rndS rndT : Nat → Nat} :
    ∀ (remaining count : Nat) (ev : Event) (acc l : List MatParams),
      suiteLoop feedback rndS rndT remaining count ev acc = some l →
      l.length ≤ acc.length + remaining := by
  intro remaining
  induction remaining with
  | zero =>
    intro count ev acc l h
    cases h
    omega
  | succ remaining ih =>
    intro count ev acc l h
    simp only [suiteLoop, Option.bind_eq_bind] at h
    cases hstep : increment_index_and_update_parameters ev (rndS count) (rndT count) with
    | none => rw [hstep] at h; cases h
    | some ev' =>
      rw [hstep, Option.some_bind] at h
      by_cases hdone : ev'.all_tests_completed
      · rw [if_pos hdone] at h
        cases h
        omega
      · rw [if_neg hdone] at h
        cases hcur : ev'.current_test with
        | none =>
          simp only [hcur, Option.none_bind] at h
          exact Option.noConfusion h
        | some ct =>
          rw [hcur, Option.some_bind] at h
          cases hsk : ev'.test_specification.skip_remaining_throughput with
          | none =>
            simp only [hsk] at h
            have := ih (count + 1) ev' (acc ++ [ct.parameters]) l h
            simp at this
            omega
          | some cond =>
            simp only [hsk] at h
            revert h
            cases heval : evaluate_skip_condition cond
                ⟨ev'.test_specification, some ct,
                  some ((feedback count).head?.getD []), ev'.all_tests_completed⟩ with
            | error e =>
              intro h
              exact Option.noConfusion h
            | ok v =>
              intro h
              have := ih (count + 1) _ (acc ++ [ct.parameters]) l h
              simp at this
              omega

/-! ## Claim theorems -/

/-- **C3.**  For the two-dimension grid `\x7ba: [0,1,2], b: [10,20]\x7d` with `a`
declared first (least significant) and no skip expression, repeated stepping
from scratch yields exactly the index sequence
`(a,b) = (0,0),(1,0),(2,0),(0,1),(1,1),(2,1)` (the first dimension varies
fastest, carries cascade to the more significant dimension), after which the
step raises the exhaustion signal; the series-id injections are irrelevant to
the emitted indexes. -/
theorem c3_theorem : ∀ prev fresh : Nat,
    sweepIndexes [("a", [PVal.num 0, PVal.num 1, PVal.num 2]),
        ("b", [PVal.num 10, PVal.num 20])] prev fresh 7 [("a", 0), ("b", 0)] =
      [[("a", 0), ("b", 0)], [("a", 1), ("b", 0)], [("a", 2), ("b", 0)],
       [("a", 0), ("b", 1)], [("a", 1), ("b", 1)], [("a", 2), ("b", 1)]] ∧
    increment_test_index [("a", 2), ("b", 1)]
      [("a", [PVal.num 0, PVal.num 1, PVal.num 2]), ("b", [PVal.num 10, PVal.num 20])]
      prev fresh 0 = .error .overflow := by
  intro prev fresh
  exact ⟨rfl, rfl⟩

/-- **C1 (amended).**  The driver loop of `run_test_suite` is bounded by its
`max_tests = 1000` cap: whatever the grid, the feedback and the injected RNG,
it returns at most 1000 test records.  When the cap is reached it simply
returns the collected results — there is no error path for the cap, so no
`SweepDidNotTerminate`-like failure is ever reported. -/
theorem c1_theorem (spec : TestSpec) (feedback : Nat → List ProducerResult)
    (rndS rndT : Nat → Nat) :
    ((run_test_suite spec feedback rndS rndT).getD []).length ≤ 1000 := by
  cases hrun : run_test_suite spec feedback rndS rndT with
  | none => simp
  | some l =>
    have := suiteLoop_length 1000 0 _ [] l hrun
    simpa using this

/-- A grid with 1001 throughput candidates: its full sweep would need 1001
steps, one more than the driver's `max_tests = 1000` cap. -/
def c1Grid : Params :=
  [("record_size_byte", [.num 1024]),
   ("cluster_throughput_mb_per_sec", (List.range 1001).map (fun i => .num (i : Int))),
   ("num_producers", [.num 1]),
   ("consumer_groups", [.groups 1 1]),
   ("duration_sec", [.num 60])]

set_option maxRecDepth 100000 in
/-- **C1 (counterexample).**  On a session whose sweep needs 1001 > 1000
steps, `run_test_suite` returns normally (`isSome`: no exception, hence no
fatal `SweepDidNotTerminate` condition) with at most 1000 results: the sweep
is silently truncated at the cap, contradicting the claim that exceeding the
cap raises a fatal error and is never silently stopped. -/
theorem c1_counterexample :
    prodSizes (c1Grid.map fun p => p.2.length) = 1001 ∧
    (run_test_suite ⟨c1Grid, none⟩ (fun _ => []) (fun _ => 0) (fun _ => 0)).isSome = true ∧
    ((run_test_suite ⟨c1Grid, none⟩ (fun _ => []) (fun _ => 0) (fun _ => 0)).getD []).length
      ≤ 1000 := by
  refine ⟨by decide, ?_, ?_⟩
  · exact suite_success (by decide) rfl _ _ _ 1000 0 _ [] ⟨rfl, Or.inl rfl⟩
  · cases hrun : run_test_suite ⟨c1Grid, none⟩ (fun _ => []) (fun _ => 0) (fun _ => 0) with
    | none => simp
    | some l =>
      have := suiteLoop_length 1000 0 _ [] l hrun
      simpa using this

/-- The single-cell grid used to drive a session to completion. -/
def c9Spec : TestSpec :=
  ⟨[("record_size_byte", [.num 1024]),
    ("cluster_throughput_mb_per_sec", [.num 16]),
    ("num_producers", [.num 2]),
    ("consumer_groups", [.groups 1 1]),
    ("duration_sec", [.num 60])], none⟩

/-- The freshly loaded event of `c9Spec`. -/
def c9Ev0 : Event := ⟨c9Spec, none, none, false⟩

/-- After one step: the single test configuration. -/
def c9Ev1 : Event := (increment_index_and_update_parameters c9Ev0 11 21).getD c9Ev0

/-- After two steps: the terminal completed event. -/
def c9Ev2 : Event := (increment_index_and_update_parameters c9Ev1 12 22).getD c9Ev0

/-- **C9 (counterexample).**  Stepping a session that has already reported
completion is accepted and implicitly restarts the sweep: the completed event
`c9Ev2` (flag set, no current test) steps to a live event whose index is the
all-zeros first configuration again, contradicting the claim that a step
after termination neither silently succeeds nor restarts the sweep. -/
theorem c9_counterexample :
    c9Ev2.all_tests_completed = true ∧
    c9Ev2.current_test = none ∧
    (increment_index_and_update_parameters c9Ev2 13 23).map Event.all_tests_completed =
      some false ∧
    ((increment_index_and_update_parameters c9Ev2 13 23).bind Event.current_test).map
        CurrentTest.index =
      some [("record_size_byte", 0), ("cluster_throughput_mb_per_sec", 0),
            ("num_producers", 0), ("consumer_groups", 0), ("duration_sec", 0)] :=
  ⟨rfl, rfl, rfl, rfl⟩

/-- **C9 (amended).**  Invoking the step operation on a completed session is
not rejected: a completed event carries no `current_test`, so
`increment_index_and_update_parameters` takes its first-test branch and
implicitly restarts the sweep from the all-zeros index. -/
theorem c9_theorem {ev : Event} {fS fT : Nat}
    (hdone : ev.all_tests_completed = true)
    (hcur : ev.current_test = none) :
    increment_index_and_update_parameters ev fS fT =
      update_parameters ev.test_specification
        (some (ev.test_specification.parameters.map (fun p => (p.1, 0)))) fT fS := by
  simp only [increment_index_and_update_parameters, hcur]

/-- Witness for C9: the completed event of the one-cell grid satisfies both
hypotheses and restarts. -/
theorem c9_witness :
    c9Ev2.all_tests_completed = true ∧ c9Ev2.current_test = none ∧
    increment_index_and_update_parameters c9Ev2 13 23 =
      update_parameters c9Ev2.test_specification
        (some (c9Ev2.test_specification.parameters.map (fun p => (p.1, 0)))) 23 13 :=
  ⟨rfl, rfl, c9_theorem rfl rfl⟩

/-- **C2.**  For every valid grid (distinct dimension names, candidate lists
of sizes `n1..nk`, each ≥ 1), the from-scratch skip-free sweep driven by
`increment_test_index` emits exactly `n1*...*nk` indexes (given enough fuel),
these indexes are pairwise distinct, and the exhaustion signal
(`OverflowError`) occurs exactly when every dimension sits at its last
candidate — that is, when the most-significant dimension would need to
carry. -/
theorem c2_theorem {params : Params} {prev fresh fuel : Nat}
    (hnd : (params.map Prod.fst).Nodup)
    (hne : ∀ p ∈ params, p.2 ≠ [])
    (hfuel : prodSizes (params.map fun p => p.2.length) ≤ fuel) :
    (sweepIndexes params prev fresh fuel (params.map (fun p => (p.1, 0)))).length =
      prodSizes (params.map fun p => p.2.length) ∧
    (sweepIndexes params prev fresh fuel (params.map (fun p => (p.1, 0)))).Nodup ∧
    (∀ ds, ValidDigits ds (params.map fun p => p.2.length) →
      (increment_test_index ((params.map Prod.fst).zip ds) params prev fresh 0 =
          .error .overflow ↔
        MaxDigits ds (params.map fun p => p.2.length))) := by
  have hvz := replicate_zero_valid hne
  have hswp := @sweep_sim params prev fresh hnd fuel _ hvz
  rw [init_index_eq_zip, hswp]
  refine ⟨?_, ?_, ?_⟩
  · rw [List.length_map,
      sweepList_length fuel hvz (by rw [mrVal_replicate_zero]; omega),
      mrVal_replicate_zero]
    omega
  · refine List.Nodup.map_on ?_ (sweepList_nodup fuel hvz)
    intro x hx y hy hxy
    have hvx := sweepList_mem_valid fuel hvz hx
    have hvy := sweepList_mem_valid fuel hvz hy
    refine zip_right_inj ?_ ?_ hxy
    · have := hvx.length_eq
      simp at this ⊢
      omega
    · have := hvy.length_eq
      simp at this ⊢
      omega
  · intro ds hvd
    have hlen : ds.length = params.length := by
      have := hvd.length_eq
      simpa using this
    rcases @increment_sim params prev fresh ds hnd hlen with
      ⟨hnone, haux⟩ | ⟨r, sid, hsome, haux⟩
    · rw [haux]
      simp only [true_iff]
      exact (incList_none_iff hvd).mp hnone
    · rw [haux]
      constructor
      · intro hcontra
        exact Except.noConfusion hcontra
      · intro hmax
        have hn := (incList_none_iff hvd).mpr hmax
        rw [hsome] at hn
        cases hn

/-- Witness for C2: the concrete 3×2 grid satisfies the hypotheses with fuel
6 and the theorem applies. -/
theorem c2_witness :
    (fun gw : Params =>
      ((gw.map Prod.fst).Nodup ∧ (∀ p ∈ gw, p.2 ≠ []) ∧
        prodSizes (gw.map fun p => p.2.length) ≤ 6) ∧
      ((sweepIndexes gw 0 0 6 (gw.map (fun p => (p.1, 0)))).length =
        prodSizes (gw.map fun p => p.2.length) ∧
      (sweepIndexes gw 0 0 6 (gw.map (fun p => (p.1, 0)))).Nodup ∧
      (∀ ds, ValidDigits ds (gw.map fun p => p.2.length) →
        (increment_test_index ((gw.map Prod.fst).zip ds) gw 0 0 0 =
            .error .overflow ↔
          MaxDigits ds (gw.map fun p => p.2.length)))))
    [("a", [PVal.num 0, PVal.num 1, PVal.num 2]), ("b", [PVal.num 10, PVal.num 20])] :=
  ⟨⟨by decide, by decide, by decide⟩,
    c2_theorem (by decide) (by decide) (by decide)⟩

/-- **C5.**  Evaluating the named metric `sent_div_requested_mb_per_sec`
returns the achieved total rate (`mbPerSecSum` of the feedback record,
defaulting to 0) divided by the requested rate of the current test when that
rate is positive, and exactly `1.0` whenever the requested rate is zero or
negative — for every feedback record content. -/
theorem c5_theorem {ev : Event} {current : CurrentTest} {t : Int}
    (hcur : ev.current_test = some current)
    (ht : rawNum current.parameters.raw ("cluster_throughput_mb_per_sec") = some t) :
    evaluate_skip_condition (.str ("sent_div_requested_mb_per_sec")) ev =
      .ok (.num (if (t : ℚ) ≤ 0 then 1
        else metricGet (ev.producer_result.getD []) ("mbPerSecSum") 0 / (t : ℚ))) := by
  show evalMetricString ("sent_div_requested_mb_per_sec") ev = _
  unfold evalMetricString
  rw [if_pos (by decide)]
  rw [hcur]
  revert ht
  cases hf : current.parameters.raw.find?
      (fun p => p.1 == "cluster_throughput_mb_per_sec") with
  | none =>
    intro ht
    unfold rawNum at ht
    rw [hf] at ht
    exact Option.noConfusion ht
  | some pr =>
    intro ht
    unfold rawNum at ht
    rw [hf] at ht
    obtain ⟨a, v⟩ := pr
    cases v with
    | num n =>
      have hnt : n = t := Option.some_injective _ ht
      subst hnt
      simp only [hf]
      by_cases hle : (n : ℚ) ≤ 0 <;> simp [hle]
    | str s2 => exact Option.noConfusion ht
    | groups a2 b2 => exact Option.noConfusion ht

/-- The current test used by the C5 witness: requested throughput 0. -/
def c5Current : CurrentTest :=
  ⟨[("cluster_throughput_mb_per_sec", 0)],
   { raw := [("cluster_throughput_mb_per_sec", .num 0)], num_jobs := 0,
     producer_throughput := 0, records_per_sec := 0, num_records_producer := 0,
     num_records_consumer := 0, test_id := 0, throughput_series_id := 0,
     topic_name := "", depletion_topic_name := "" }⟩

/-- The event used by the C5 witness: nonzero feedback, requested rate 0. -/
def c5Ev : Event :=
  ⟨⟨[], none⟩, some c5Current, some [("mbPerSecSum", 57)], false⟩

/-- Witness for C5: with requested rate `0` and feedback `mbPerSecSum = 57`,
the metric evaluates to exactly `1.0`. -/
theorem c5_witness :
    c5Ev.current_test = some c5Current ∧
    rawNum c5Current.parameters.raw ("cluster_throughput_mb_per_sec") = some 0 ∧
    evaluate_skip_condition (.str ("sent_div_requested_mb_per_sec")) c5Ev =
      .ok (.num 1) := by
  refine ⟨rfl, rfl, ?_⟩
  have h := @c5_theorem c5Ev c5Current 0 rfl rfl
  simpa using h

/-- The empty-context event used by the C6 counterexample and witness. -/
def c6Ev : Event := ⟨⟨[], none⟩, none, none, false⟩

/-- **C6 (counterexample).**  A `greater-than` node of the wrong arity
(three arguments) is not of the correct binary-comparison shape, yet
evaluation does not fail at all: the extra argument is silently ignored and
the node evaluates to `True`, contradicting the claim that every such node
fails with a malformed-expression error. -/
theorem c6_counterexample :
    evaluate_skip_condition
      (.dict [("greater-than", .list [.num 1, .num 0, .num 5])]) c6Ev =
      .ok (.bool true) := rfl

/-- **C6 (amended).**  A dict with neither comparison key, an unknown metric
name, and a non-dict/str/numeric node all fail with the
"Unable to parse condition" error carrying the offending fragment, and are
never coerced to `false`; comparison nodes however read only `args[0]` and
`args[1]`: extra arguments are ignored (see the counterexample),
and an empty argument list fails with an `IndexError` that does not carry
the fragment. -/
theorem c6_theorem :
    (∀ entries ev, pyDictLookup entries ("greater-than") = none →
      pyDictLookup entries ("less-than") = none →
      evaluate_skip_condition (.dict entries) ev = .error (.malformed (.dict entries))) ∧
    (∀ s ev, s ≠ "sent_div_requested_mb_per_sec" →
      evaluate_skip_condition (.str s) ev = .error (.malformed (.str s))) ∧
    (∀ xs ev, evaluate_skip_condition (.list xs) ev = .error (.malformed (.list xs))) ∧
    (∀ ev, evaluate_skip_condition .pynone ev = .error (.malformed .pynone)) ∧
    (∀ entries ev, pyDictLookup entries ("greater-than") = some (.list []) →
      evaluate_skip_condition (.dict entries) ev = .error .indexError) := by
  refine ⟨?_, ?_, ?_, ?_, ?_⟩
  · intro entries ev h1 h2
    simp only [evaluate_skip_condition, PyVal.size, evalAux, h1, h2]
  · intro s ev hs
    simp only [evaluate_skip_condition, PyVal.size, evalAux, evalMetricString]
    rw [if_neg (by simp [hs])]
  · intro xs ev
    simp only [evaluate_skip_condition, PyVal.size, evalAux]
  · intro ev
    simp only [evaluate_skip_condition, PyVal.size, evalAux]
  · intro entries ev h1
    simp only [evaluate_skip_condition, PyVal.size, evalAux, h1, evalComparison,
      List.get?]

/-- Witness for C6 (amended): a dict with an unknown key fails with the
malformed-expression error carrying that dict. -/
theorem c6_witness :
    pyDictLookup [("foo", PyVal.num 1)] ("greater-than") = none ∧
    pyDictLookup [("foo", PyVal.num 1)] ("less-than") = none ∧
    evaluate_skip_condition (.dict [("foo", .num 1)]) c6Ev =
      .error (.malformed (.dict [("foo", .num 1)])) :=
  ⟨rfl, rfl, c6_theorem.1 [("foo", .num 1)] c6Ev rfl rfl⟩

/-- The grid of the C7 concrete example: throughput 120, 4 producers, record
size 1024, duration 60. -/
def c7Spec : TestSpec :=
  ⟨[("record_size_byte", [.num 1024]),
    ("cluster_throughput_mb_per_sec", [.num 120]),
    ("num_producers", [.num 4]),
    ("consumer_groups", [.groups 1 2]),
    ("duration_sec", [.num 60])], none⟩

/-- The all-zero index of `c7Spec`. -/
def c7Idx : Index :=
  [("record_size_byte", 0), ("cluster_throughput_mb_per_sec", 0),
   ("num_producers", 0), ("consumer_groups", 0), ("duration_sec", 0)]

/-- **C7.**  Materialization computes, for a positive throughput target,
`producerByteRate = throughputMB·2^20 // numProducers` and
`numRecordsProducer = producerByteRate·durationSec // recordSizeBytes` with
Python floor-division semantics (`Int.fdiv`), the consumer byte rate being
derived analogously from the group size; for the concrete example
`throughput=120, producers=4, recordSize=1024, duration=60` the materialized
event carries exactly `120*1024*1024/4` and `120*1024*1024/4*60/1024`; and
for a zero-or-negative throughput target both byte rates are the `-1`
sentinel and both record counts the large sentinel `2147483647`. -/
theorem c7_theorem :
    (∀ t np gs dur rs : Int, 0 < t → np ≠ 0 → rs ≠ 0 →
      throughput_quantities t np gs dur rs = some ((t * 1024 ^ 2).fdiv np,
        (if 0 < gs then (t * 1024 ^ 2).fdiv gs else 0),
        ((t * 1024 ^ 2).fdiv np * dur).fdiv rs,
        ((if 0 < gs then (t * 1024 ^ 2).fdiv gs else 0) * dur).fdiv rs)) ∧
    (∀ t np gs dur rs : Int, t ≤ 0 →
      throughput_quantities t np gs dur rs = some (-1, -1, 2147483647, 2147483647)) ∧
    (((update_parameters c7Spec (some c7Idx) 0 0).bind Event.current_test).map
        (fun ct => (ct.parameters.producer_throughput, ct.parameters.num_records_producer)) =
      some (120 * 1024 * 1024 / 4, 120 * 1024 * 1024 / 4 * 60 / 1024)) := by
  refine ⟨?_, ?_, ?_⟩
  · intro t np gs dur rs ht hnp hrs
    exact throughput_quantities_pos ht hnp hrs
  · intro t np gs dur rs ht
    exact throughput_quantities_nonpos (by omega)
  · rfl

/-- Witness for C7: both general arms applied at concrete inputs. -/
theorem c7_witness :
    ((0 : Int) < 120 ∧ (4 : Int) ≠ 0 ∧ (1024 : Int) ≠ 0 ∧
      throughput_quantities 120 4 2 60 1024 = some (((120 : Int) * 1024 ^ 2).fdiv 4,
        (if (0 : Int) < 2 then ((120 : Int) * 1024 ^ 2).fdiv 2 else 0),
        (((120 : Int) * 1024 ^ 2).fdiv 4 * 60).fdiv 1024,
        ((if (0 : Int) < 2 then ((120 : Int) * 1024 ^ 2).fdiv 2 else 0) * 60).fdiv 1024)) ∧
    ((-1 : Int) ≤ 0 ∧
      throughput_quantities (-1) 4 2 60 1024 = some (-1, -1, 2147483647, 2147483647)) :=
  ⟨⟨by decide, by decide, by decide,
      c7_theorem.1 120 4 2 60 1024 (by decide) (by decide) (by decide)⟩,
   ⟨by decide, c7_theorem.2.1 (-1) 4 2 60 1024 (by decide)⟩⟩

/-- **C10.**  When the consumer-group shape has size `0` and the throughput
target is positive, materialization is total: the guarded branch sets the
consumer byte rate to `0` instead of dividing by the group size, the
consumer record count is `0`, and `update_parameters` succeeds. -/
theorem c10_theorem :
    (∀ t np dur rs : Int, 0 < t → np ≠ 0 → rs ≠ 0 →
      throughput_quantities t np 0 dur rs =
        some ((t * 1024 ^ 2).fdiv np, 0, ((t * 1024 ^ 2).fdiv np * dur).fdiv rs, 0)) ∧
    (∀ (spec : TestSpec) (idx : Index) (tid sid : Nat)
        (raw : List (String × PVal)) (rs t np g dur : Int),
      materializeRaw spec idx = some raw →
      rawNum raw ("record_size_byte") = some rs →
      rawNum raw ("cluster_throughput_mb_per_sec") = some t →
      rawNum raw ("num_producers") = some np →
      rawGroups raw ("consumer_groups") = some (g, 0) →
      rawNum raw ("duration_sec") = some dur →
      rs ≠ 0 → np ≠ 0 → 0 < t →
      ∃ mp : MatParams, update_parameters spec (some idx) tid sid = some
        { test_specification := spec,
          current_test := some { index := idx, parameters := mp },
          producer_result := none, all_tests_completed := false } ∧
        mp.num_records_consumer = 0) := by
  have harm : ∀ t np dur rs : Int, 0 < t → np ≠ 0 → rs ≠ 0 →
      throughput_quantities t np 0 dur rs =
        some ((t * 1024 ^ 2).fdiv np, 0, ((t * 1024 ^ 2).fdiv np * dur).fdiv rs, 0) := by
    intro t np dur rs ht hnp hrs
    have h := @throughput_quantities_pos t np 0 dur rs ht hnp hrs
    simpa using h
  refine ⟨harm, ?_⟩
  intro spec idx tid sid raw rs t np g dur hraw hrs ht hnp hg0 hdur hrs0 hnp0 ht0
  obtain ⟨mp, hupd, _, _, _, _, cb, hq⟩ :=
    update_parameters_some hraw hrs ht hnp hg0 hdur hrs0 hnp0
  refine ⟨mp, hupd, ?_⟩
  have hq2 := harm t np dur rs ht0 hnp0 hrs0
  have heq := hq2.symm.trans hq
  simp only [Option.some.injEq, Prod.mk.injEq] at heq
  exact heq.2.2.2.symm

/-- The raw record used by the C10 witness. -/
def c10Spec : TestSpec :=
  ⟨[("record_size_byte", [.num 1024]),
    ("cluster_throughput_mb_per_sec", [.num 16]),
    ("num_producers", [.num 2]),
    ("consumer_groups", [.groups 3 0]),
    ("duration_sec", [.num 60])], none⟩

/-- The all-zero index of `c10Spec`. -/
def c10Idx : Index :=
  [("record_size_byte", 0), ("cluster_throughput_mb_per_sec", 0),
   ("num_producers", 0), ("consumer_groups", 0), ("duration_sec", 0)]

/-- The materialized raw record of `c10Spec` at `c10Idx`. -/
def c10Raw : List (String × PVal) :=
  [("record_size_byte", .num 1024), ("cluster_throughput_mb_per_sec", .num 16),
   ("num_producers", .num 2), ("consumer_groups", .groups 3 0),
   ("duration_sec", .num 60)]

/-- Witness for C10: a grid with consumer-group size `0` materializes, with a
zero consumer record count. -/
theorem c10_witness :
    (materializeRaw c10Spec c10Idx = some c10Raw ∧
      rawGroups c10Raw ("consumer_groups") = some (3, 0) ∧
      (0 : Int) < 16 ∧
      ∃ mp : MatParams, update_parameters c10Spec (some c10Idx) 0 0 = some
        { test_specification := c10Spec,
          current_test := some { index := c10Idx, parameters := mp },
          producer_result := none, all_tests_completed := false } ∧
        mp.num_records_consumer = 0) :=
  ⟨rfl, rfl, by decide,
    c10_theorem.2 c10Spec c10Idx 0 0 c10Raw 1024 16 2 3 60
      rfl rfl rfl rfl rfl rfl (by decide) (by decide) (by decide)⟩

/-- **C8.**  Series-id plumbing of one step: a successful
`increment_test_index` at position `0` returns the fresh draw exactly when
the carry runs through every dimension up to and including the throughput
dimension (i.e. the throughput dimension is reset by the rollover) and the
unchanged previous series id otherwise; and `skip_remaining_throughput`
always returns a fresh draw.  Consequently the id is constant along
consecutive steps that do not reset the throughput dimension and changes on
every reset, by normal rollover or by bulk skip. -/
theorem c8_theorem :
    (∀ (params : Params) (ds : List Nat) (prev fresh ti : Nat) (idx : Index) (sid : Nat),
      (params.map Prod.fst).Nodup →
      ds.length = params.length →
      (params.map Prod.fst).get? ti = some "cluster_throughput_mb_per_sec" →
      increment_test_index ((params.map Prod.fst).zip ds) params prev fresh 0 =
        .ok (idx, sid) →
      ((∀ j, j ≤ ti →
          (params.map fun p => p.2.length).getD j 0 ≤ ds.getD j 0 + 1) → sid = fresh) ∧
      ((¬ ∀ j, j ≤ ti →
          (params.map fun p => p.2.length).getD j 0 ≤ ds.getD j 0 + 1) → sid = prev)) ∧
    (∀ (index : Index) (params : Params) (prev fresh : Nat) (i : Index) (sid : Nat),
      skip_remaining_throughput index params prev fresh = .ok (i, sid) → sid = fresh) := by
  constructor
  · intro params ds prev fresh ti idx sid hnd hlen hti h
    have hti' : ti < (params.map Prod.fst).length := (List.get?_eq_some.mp hti).1
    rw [increment_test_index, Nat.sub_zero] at h
    have hser := incrementAux_series params.length 0 ds hnd hlen (by omega) hti
      (by omega) h
    constructor
    · intro hc
      exact hser.1 (fun j _ hj => hc j hj)
    · intro hc
      refine hser.2 (fun hc' => hc (fun j hj => hc' j (by omega) hj))
  · intro index params prev fresh i sid h
    simp only [skip_remaining_throughput] at h
    by_cases hm : "cluster_throughput_mb_per_sec" ∈ params.map Prod.fst
    · rw [if_pos hm] at h
      cases hinc : increment_test_index
          (dictMergeAll index (((index.map Prod.fst).take
            ((params.map Prod.fst).findIdx
              (fun n => n == "cluster_throughput_mb_per_sec") + 1)).map
            (fun name => (name, 0))))
          params prev fresh
          ((params.map Prod.fst).findIdx
            (fun n => n == "cluster_throughput_mb_per_sec") + 1) with
      | ok u =>
        simp only [hinc] at h
        obtain ⟨u1, u2⟩ := u
        cases h
        rfl
      | error e =>
        rw [hinc] at h
        exact Except.noConfusion h
    · rw [if_neg hm] at h
      cases h

/-- A two-dimensional grid for exercising the series-id discipline: the
throughput dimension (two candidates) followed by `num_producers`. -/
def c8Params : Params :=
  [("cluster_throughput_mb_per_sec", [.num 10, .num 50]),
   ("num_producers", [.num 1, .num 2])]

/-- Witness for the series-id characterisation: stepping the index `(1, 0)`
of the `c8Params` grid rolls the throughput dimension over, so the returned
series id is the fresh draw `77` (not the previous id `5`), and the new
index is `(0, 1)`. -/
theorem c8_witness :
    increment_test_index ((c8Params.map Prod.fst).zip [1, 0]) c8Params 5 77 0 =
      .ok ([("cluster_throughput_mb_per_sec", 0), ("num_producers", 1)], 77) ∧
    (77 : Nat) = 77 := by
  refine ⟨rfl, ?_⟩
  exact (c8_theorem.1 c8Params [1, 0] 5 77 0
      [("cluster_throughput_mb_per_sec", 0), ("num_producers", 1)] 77
      (by decide) rfl rfl rfl).1 (by decide)

/-- The spec's example grid for the skip-ahead behaviour. -/
def c4Params : Params :=
  [("cluster_throughput_mb_per_sec", [.num 10, .num 50, .num 100]),
   ("num_producers", [.num 1, .num 2])]

/-- The current test of the C4 witness event: first index, requested
throughput `0` (the uncapped sentinel, so the efficiency ratio is `1.0`),
series id 5. -/
def c4Current : CurrentTest :=
  ⟨[("cluster_throughput_mb_per_sec", 0), ("num_producers", 0)],
   { raw := [("cluster_throughput_mb_per_sec", .num 0)], num_jobs := 0,
     producer_throughput := 0, records_per_sec := 0, num_records_producer := 0,
     num_records_consumer := 0, test_id := 0, throughput_series_id := 5,
     topic_name := "", depletion_topic_name := "" }⟩

/-- A skip expression that is truthy on the witness event:
`greater-than(sent_div_requested_mb_per_sec, 0)`. -/
def c4Cond : PyVal :=
  .dict [("greater-than", .list [.str ("sent_div_requested_mb_per_sec"), .num 0])]

/-- The C4 witness event: a non-first step with nonempty feedback and a
truthy skip expression. -/
def c4Ev : Event :=
  ⟨⟨c4Params, some c4Cond⟩, some c4Current, some [("mbPerSecSum", 5)], false⟩

/-- **C4.**  When a configured skip expression evaluates truthy on a
non-first step (feedback present and nonempty), the step routes through
`skip_remaining_throughput`; and `skip_remaining_throughput` produces the
next index by resetting every dimension at a position ≤ the throughput
dimension's position to `0` and running the odometer from the position just
above it, so dimensions above keep their values unless the increment carries
into them; the fresh series id is returned. -/
theorem c4_theorem :
    (∀ (params : Params) (ds : List Nat) (prev fresh ti : Nat),
      (params.map Prod.fst).Nodup →
      ds.length = params.length →
      (params.map Prod.fst).get? ti = some "cluster_throughput_mb_per_sec" →
      skip_remaining_throughput ((params.map Prod.fst).zip ds) params prev fresh =
        match incList (ds.drop (ti + 1))
            ((params.map fun p => p.2.length).drop (ti + 1)) with
        | some r =>
          .ok ((params.map Prod.fst).zip (List.replicate (ti + 1) 0 ++ r), fresh)
        | none => .error .overflow) ∧
    (∀ (ev : Event) (current : CurrentTest) (cond : PyVal) (r : ProducerResult)
        (v : EvalResult) (fS fT : Nat),
      ev.current_test = some current →
      ev.test_specification.skip_remaining_throughput = some cond →
      ev.producer_result = some r →
      r ≠ [] →
      cond.truthy = true →
      evaluate_skip_condition cond ev = .ok v →
      v.toBool = true →
      increment_index_and_update_parameters ev fS fT =
        (skipArm current.index ev.test_specification.parameters
          current.parameters.throughput_series_id fS).bind
          (fun step => update_parameters ev.test_specification step.1 fT step.2)) := by
  constructor
  · intro params ds prev fresh ti hnd hlen hti
    exact skip_sim hnd hlen hti
  · intro ev current cond r v fS fT hcur hsk hpr hrne htr heval hvb
    have hre : r.isEmpty = false := by
      cases r with
      | nil => exact absurd rfl hrne
      | cons a l => rfl
    simp only [increment_index_and_update_parameters, hcur, hsk, hpr, htr, hre,
      Bool.not_false, Bool.and_self, heval, hvb, if_pos]
    rfl

/-- Witness for C4: on the spec's example grid at the first index, the
bulk-skip formula gives the next index `(throughput slot 0, producers
slot 1)` — the remaining throughput values are skipped while the producers
dimension advances — and a truthy skip expression routes the step through
`skip_remaining_throughput`. -/
theorem c4_witness :
    ((c4Params.map Prod.fst).Nodup ∧
      (c4Params.map Prod.fst).get? 0 = some "cluster_throughput_mb_per_sec" ∧
      skip_remaining_throughput ((c4Params.map Prod.fst).zip [0, 0]) c4Params 5 77 =
        match incList ([0, 0].drop 1) ((c4Params.map fun p => p.2.length).drop 1) with
        | some r => .ok ((c4Params.map Prod.fst).zip (List.replicate 1 0 ++ r), 77)
        | none => .error .overflow) ∧
    (c4Ev.current_test = some c4Current ∧
      evaluate_skip_condition c4Cond c4Ev = .ok (.bool true) ∧
      increment_index_and_update_parameters c4Ev 77 88 =
        (skipArm c4Current.index c4Ev.test_specification.parameters
          c4Current.parameters.throughput_series_id 77).bind
          (fun step => update_parameters c4Ev.test_specification step.1 88 step.2)) :=
  ⟨⟨by decide, rfl,
      c4_theorem.1 c4Params [0, 0] 5 77 0 (by decide) (by decide) rfl⟩,
   ⟨rfl, rfl,
      c4_theorem.2 c4Ev c4Current c4Cond [("mbPerSecSum", 5)] (.bool true) 77 88
        rfl rfl rfl (by decide) rfl rfl rfl⟩⟩

end KafkaSweep
